import Mathlib

/-!
Verification development for the Power_Resume_Matcher backend.

The registry (database repository) layer is embedded from
`src/apps/backend/app/database/__init__.py` together with the table shapes of
`src/apps/backend/app/database/models.py`.  Rows are modelled as records, a
table as a list of rows, and each repository method as a pure function on the
table state; SQLAlchemy's `scalar_one_or_none` is modelled by pattern-matching
on the result list (zero rows, one row, several rows raising
`MultipleResultsFound`), and fallible methods return `Except`.

The tailoring pipeline (`app/services/improver.py`: `calculate_resume_diff`,
`improve_resume`) is not part of the provided sources - only its tests and
callers are - so those functions are modelled from the specification, as
marked in their doc comments.
-/

/-- `processing_status` values of a resume row
(`models.py`: pending, processing, ready, failed). -/
inductive Status
  | pending
  | processing
  | ready
  | failed
deriving DecidableEq, Repr

/-- One row of the `resumes` table.  Payload columns that carry no logic in
the repository layer (filename, cover_letter, outreach_message, timestamps,
processed_data) are omitted; `content` stands for the resume payload.
Primary-key UUIDs are modelled as opaque `Nat` identifiers. -/
structure ResumeRec where
  id : Nat
  content : String
  is_master : Bool
  is_confirmed : Bool
  parent_id : Option Nat
  processing_status : Status
deriving DecidableEq, Repr

/-- One row of the `jobs` table (columns relevant to `delete_resume`). -/
structure JobRec where
  id : Nat
  resume_id : Option Nat
deriving DecidableEq, Repr

/-- One row of the `improvements` table (columns relevant to `delete_resume`):
`original_resume_id` and `tailored_resume_id` are non-nullable foreign keys
into `resumes`, `job_id` a nullable foreign key into `jobs` (`models.py`;
none declares ON DELETE behaviour, so deletes are blocked by live
references). -/
structure ImprovementRec where
  id : Nat
  original_resume_id : Nat
  tailored_resume_id : Nat
  job_id : Option Nat
deriving DecidableEq, Repr

/-- The database state: the three tables touched by the repository layer. -/
structure DBState where
  resumes : List ResumeRec
  jobs : List JobRec
  improvements : List ImprovementRec
deriving DecidableEq, Repr

/-- Errors raised by the SQLAlchemy layer as modelled here:
`multipleResultsFound` is `scalar_one_or_none` seeing more than one row,
`valueErrorNotFound` is the `ValueError` raised by `update_resume`, and
`integrityError` is PostgreSQL rejecting a DELETE whose victim row is still
referenced through a foreign key (the transaction rolls back, nothing
commits). -/
inductive DBErr
  | multipleResultsFound
  | valueErrorNotFound
  | integrityError
deriving DecidableEq, Repr

/-- The list of rows currently flagged `is_master` (the SELECT of
`_get_master_resume_internal` before `scalar_one_or_none`). -/
def masterRows (s : List ResumeRec) : List ResumeRec :=
  s.filter (fun r => r.is_master)

/-- The global invariant of the spec: at most one resume has
`is_master = true`. -/
def atMostOneMaster (s : List ResumeRec) : Prop :=
  (masterRows s).length ≤ 1

instance (s : List ResumeRec) : Decidable (atMostOneMaster s) := by
  unfold atMostOneMaster; infer_instance

/-- Primary-key uniqueness of the `resumes` table: any committed PostgreSQL
state satisfies it (`id` is the primary key in `models.py`). -/
def NodupIds (s : List ResumeRec) : Prop :=
  (s.map (fun r => r.id)).Nodup

instance (s : List ResumeRec) : Decidable (NodupIds s) := by
  unfold NodupIds; infer_instance

/-- `Database._get_master_resume_internal`: SELECT the master row;
`scalar_one_or_none` returns the row, `None`, or raises
`MultipleResultsFound`. -/
def get_master_resume_internal (s : List ResumeRec) :
    Except DBErr (Option ResumeRec) :=
  match masterRows s with
  | [] => .ok none
  | [m] => .ok (some m)
  | _ :: _ :: _ => .error .multipleResultsFound

/-- `Database.create_resume`: INSERT a fresh row with the given column values
and return it.  The fresh UUID is passed in as `newId`. -/
def create_resume (s : List ResumeRec) (newId : Nat) (content : String)
    (is_master : Bool) (is_confirmed : Bool) (parent_id : Option Nat)
    (processing_status : Status) : List ResumeRec × ResumeRec :=
  let r : ResumeRec :=
    { id := newId, content := content, is_master := is_master,
      is_confirmed := is_confirmed, parent_id := parent_id,
      processing_status := processing_status }
  (s ++ [r], r)

/-- The UPDATE demoting the row whose id is `mid`
(`.where(Resume.id == ...).values(is_master=False)`). -/
def demoteById (s : List ResumeRec) (mid : Nat) : List ResumeRec :=
  s.map (fun r => if r.id = mid then { r with is_master := false } else r)

/-- `Database.create_resume_atomic_master`: look up the current master; a new
resume becomes master when none exists; a master stuck in `failed` is demoted
and the new resume becomes master; otherwise the new resume is non-master.
Sequential (single-caller) semantics; the lock/step structure is modelled
separately below. -/
def create_resume_atomic_master (s : List ResumeRec) (newId : Nat)
    (content : String) (processing_status : Status) :
    Except DBErr (List ResumeRec × ResumeRec) :=
  match get_master_resume_internal s with
  | .error e => .error e
  | .ok none =>
      .ok (create_resume s newId content true false none processing_status)
  | .ok (some m) =>
      if m.processing_status = Status.failed then
        .ok (create_resume (demoteById s m.id) newId content true false none
          processing_status)
      else
        .ok (create_resume s newId content false false none processing_status)

/-- The column updates accepted by `Database.update_resume` (fields the model
tracks; `resume_id` is popped by the code and cannot be updated). -/
structure ResumeUpdates where
  content : Option String := none
  is_master : Option Bool := none
  is_confirmed : Option Bool := none
  parent_id : Option (Option Nat) := none
  processing_status : Option Status := none
deriving DecidableEq, Repr

/-- Apply an update set to one row (the SET clause of the UPDATE). -/
def applyUpdates (u : ResumeUpdates) (r : ResumeRec) : ResumeRec :=
  { r with
    content := u.content.getD r.content,
    is_master := u.is_master.getD r.is_master,
    is_confirmed := u.is_confirmed.getD r.is_confirmed,
    parent_id := u.parent_id.getD r.parent_id,
    processing_status := u.processing_status.getD r.processing_status }

/-- `Database.update_resume`: UPDATE ... WHERE id = rid RETURNING; raises
`ValueError` when no row matched, `MultipleResultsFound` (from
`scalar_one_or_none`) when several did. -/
def update_resume (s : List ResumeRec) (rid : Nat) (u : ResumeUpdates) :
    Except DBErr (List ResumeRec × ResumeRec) :=
  let s1 := s.map (fun r => if r.id = rid then applyUpdates u r else r)
  match s1.filter (fun r => r.id = rid) with
  | [] => .error .valueErrorNotFound
  | [r] => .ok (s1, r)
  | _ :: _ :: _ => .error .multipleResultsFound

/-- `Database.set_master_resume`: verify the target exists (returning `false`
otherwise), demote every current master, then promote the target; the returned
Bool is `rowcount > 0` of the promoting UPDATE. -/
def set_master_resume (s : List ResumeRec) (rid : Nat) :
    Except DBErr (List ResumeRec × Bool) :=
  match s.filter (fun r => r.id = rid) with
  | [] => .ok (s, false)
  | [_] =>
      let s1 := s.map (fun r =>
        if r.is_master then { r with is_master := false } else r)
      let s2 := s1.map (fun r =>
        if r.id = rid then { r with is_master := true } else r)
      .ok (s2, (s2.filter (fun r => r.id = rid)).length > 0)
  | _ :: _ :: _ => .error .multipleResultsFound

/-- The ids selected by `delete_resume`'s first query: children of `rid`. -/
def childIds (st : DBState) (rid : Nat) : List Nat :=
  (st.resumes.filter (fun r => r.parent_id = some rid)).map (fun r => r.id)

/-- Whether a `resumes` row with this id is (still) present. -/
def resumeIdExists (res : List ResumeRec) (p : Nat) : Bool :=
  res.any (fun r => decide (r.id = p))

/-- Whether a `jobs` row with this id is (still) present. -/
def jobIdExists (jobs : List JobRec) (p : Nat) : Bool :=
  jobs.any (fun j => decide (j.id = p))

/-- The foreign-key check PostgreSQL runs when a DELETE removes the resume
rows with ids `deletedIds`: the statement fails when any surviving row
(a resume's `parent_id`, an improvement's `original_resume_id` or
`tailored_resume_id`, or a job's `resume_id`) still references a deleted id
that no surviving resume row carries. -/
def violatesResumeFK (deletedIds : List Nat) (resAfter : List ResumeRec)
    (jobsAfter : List JobRec) (impsAfter : List ImprovementRec) : Bool :=
  (resAfter.any (fun r => match r.parent_id with
    | some p => decide (p ∈ deletedIds) && !resumeIdExists resAfter p
    | none => false))
  || (impsAfter.any (fun i =>
      (decide (i.original_resume_id ∈ deletedIds) &&
        !resumeIdExists resAfter i.original_resume_id)
      || (decide (i.tailored_resume_id ∈ deletedIds) &&
        !resumeIdExists resAfter i.tailored_resume_id)))
  || (jobsAfter.any (fun j => match j.resume_id with
    | some p => decide (p ∈ deletedIds) && !resumeIdExists resAfter p
    | none => false))

/-- The foreign-key check for a DELETE removing the job rows with ids
`deletedJobIds`: it fails when a surviving improvement's `job_id` still
references a deleted job id that no surviving job row carries. -/
def violatesJobFK (deletedJobIds : List Nat) (jobsAfter : List JobRec)
    (impsAfter : List ImprovementRec) : Bool :=
  impsAfter.any (fun i => match i.job_id with
    | some jid => decide (jid ∈ deletedJobIds) && !jobIdExists jobsAfter jid
    | none => false)

/-- `Database.delete_resume`: delete improvements tailored from a child of
`rid`, the child rows themselves, improvements referencing `rid` directly,
jobs referencing `rid`, and finally the row `rid`; returns whether the final
DELETE removed a row.  Deletes on `improvements` are never blocked (nothing
references that table), but each DELETE on `resumes` or `jobs` is subject to
the foreign-key checks above; a violation raises IntegrityError, the session
rolls back, and nothing commits. -/
def delete_resume (st : DBState) (rid : Nat) :
    Except DBErr (DBState × Bool) :=
  let child_ids := childIds st rid
  let imp1 := st.improvements.filter
    (fun i => !decide (i.tailored_resume_id ∈ child_ids))
  let res1 := st.resumes.filter (fun r => !(r.parent_id = some rid))
  if violatesResumeFK child_ids res1 st.jobs imp1 then .error .integrityError
  else
    let imp2 := imp1.filter
      (fun i => !(i.original_resume_id = rid || i.tailored_resume_id = rid))
    let deleted_job_ids :=
      (st.jobs.filter (fun j => j.resume_id = some rid)).map (fun j => j.id)
    let jobs1 := st.jobs.filter (fun j => !(j.resume_id = some rid))
    if violatesJobFK deleted_job_ids jobs1 imp2 then .error .integrityError
    else
      let final_ids := (res1.filter (fun r => r.id = rid)).map (fun r => r.id)
      let res2 := res1.filter (fun r => !(r.id = rid))
      if violatesResumeFK final_ids res2 jobs1 imp2 then
        .error .integrityError
      else
        .ok (⟨res2, jobs1, imp2⟩,
          (res1.filter (fun r => r.id = rid)).length > 0)

/-!
## Diff Engine (spec-modelled)

`app/services/improver.py` is not among the provided sources (only its tests
in `tests/test_tailoring_integration.py` import it), so the Diff Engine is
modelled from spec section 4.1.
-/

/-- `field_type` of a diff entry (spec section 3, DiffEntry). -/
inductive FieldType
  | summary
  | skill
  | certification
  | language
  | award
  | description
  | title
deriving DecidableEq, Repr

/-- `change_type` of a diff entry. -/
inductive ChangeType
  | added
  | removed
  | modified
deriving DecidableEq, Repr

/-- `confidence` (risk) level of a diff entry. -/
inductive Confidence
  | high
  | medium
  | low
deriving DecidableEq, Repr

/-- `ResumeFieldDiff`: one detected change. -/
structure DiffEntry where
  field_type : FieldType
  change_type : ChangeType
  old_value : Option String
  new_value : Option String
  confidence : Confidence
deriving DecidableEq, Repr

/-- `ResumeDiffSummary`: aggregate counters over the entries. -/
structure DiffSummary where
  total_changes : Nat
  skills_added : Nat
  skills_removed : Nat
  descriptions_modified : Nat
  high_risk_changes : Nat
deriving DecidableEq, Repr

/-- A work-experience description bullet: a string, or a malformed (non-string)
value that the diff pass skips. -/
inductive DescItem
  | str : String → DescItem
  | malformed : DescItem
deriving DecidableEq, Repr

/-- A work-experience entry (spec section 3): only `id` and `description`
participate in the diff; title/company/years are carried for shape. -/
structure WorkEntry where
  id : Int
  title : String
  company : String
  years : String
  description : List DescItem
deriving DecidableEq, Repr

/-- Modelled from the spec: the ResumeDocument shape of section 3, restricted
to the fields the Diff Engine of section 4.1 compares.  `title` is
`personalInfo.title` (absent modelled as the empty string); the four
set-like string sequences of `additional` are inlined. -/
structure ResumeDoc where
  title : String
  summary : String
  workExperience : List WorkEntry
  technicalSkills : List String
  languages : List String
  certificationsTraining : List String
  awards : List String
deriving DecidableEq, Repr

/-- Modelled from the spec: title policy - string equality, unequal gives one
`modified` entry of field_type `title` (cosmetic, so `low` confidence). -/
def titleDiff (o r : String) : List DiffEntry :=
  if o = r then []
  else [⟨.title, .modified, some o, some r, .low⟩]

/-- Modelled from the spec: summary policy - empty original and non-empty
revised gives `added`; non-empty original and empty revised gives `removed`;
both non-empty and unequal gives `modified`; equal gives no entry.  Summary
edits carry `medium` confidence. -/
def summaryDiff (o r : String) : List DiffEntry :=
  if o = r then []
  else if o = "" then [⟨.summary, .added, none, some r, .medium⟩]
  else if r = "" then [⟨.summary, .removed, some o, none, .medium⟩]
  else [⟨.summary, .modified, some o, some r, .medium⟩]

/-- Modelled from the spec: set-valued field policy - order and duplicates
irrelevant, one `added` entry per string of revised minus original, one
`removed` entry per string of original minus revised, never `modified`.
The confidence of additions and removals is a parameter (skill and
certification additions are `high`; the medium/low split for the rest is the
policy choice the spec leaves open). -/
def setFieldDiff (ft : FieldType) (addConf remConf : Confidence)
    (orig rev : List String) : List DiffEntry :=
  ((rev.dedup.filter (fun v => decide (¬ v ∈ orig))).map
    (fun v => ⟨ft, .added, none, some v, addConf⟩))
  ++ ((orig.dedup.filter (fun v => decide (¬ v ∈ rev))).map
    (fun v => ⟨ft, .removed, some v, none, remConf⟩))

/-- Modelled from the spec: positional comparison of two description bullet
lists - a changed bullet at the same index gives one `modified` entry, bullets
beyond the shorter list are `added`/`removed`, malformed values are skipped.
Description edits carry `medium` confidence. -/
def descListDiff : List DescItem → List DescItem → List DiffEntry
  | [], [] => []
  | [], .str s :: rs =>
      ⟨.description, .added, none, some s, .medium⟩ :: descListDiff [] rs
  | [], .malformed :: rs => descListDiff [] rs
  | .str s :: os, [] =>
      ⟨.description, .removed, some s, none, .medium⟩ :: descListDiff os []
  | .malformed :: os, [] => descListDiff os []
  | o :: os, r :: rs =>
      (match o, r with
        | .str a, .str b =>
            if a = b then []
            else [⟨.description, .modified, some a, some b, .medium⟩]
        | _, _ => []) ++ descListDiff os rs

/-- Modelled from the spec: work-experience entries are aligned by `id`
(entries present on one side only are out of scope); for matched pairs the
description lists are compared positionally. -/
def workExperienceDiff (orig rev : List WorkEntry) : List DiffEntry :=
  (((orig.map (fun e => e.id)).dedup).map (fun i =>
    match orig.find? (fun e => e.id == i), rev.find? (fun e => e.id == i) with
    | some o, some r => descListDiff o.description r.description
    | _, _ => [])).flatten

/-- Build the `ResumeDiffSummary` counters from the entry list (spec section
3: `total_changes` is the entry count, `high_risk_changes` counts the
`high`-confidence entries). -/
def mkSummary (es : List DiffEntry) : DiffSummary :=
  { total_changes := es.length,
    skills_added := es.countP
      (fun e => decide (e.field_type = .skill ∧ e.change_type = .added)),
    skills_removed := es.countP
      (fun e => decide (e.field_type = .skill ∧ e.change_type = .removed)),
    descriptions_modified := es.countP
      (fun e => decide (e.field_type = .description ∧
        e.change_type = .modified)),
    high_risk_changes := es.countP
      (fun e => decide (e.confidence = .high)) }

/-- Modelled from the spec: `calculate_resume_diff` (the `compute_diff`
contract of section 4.1) - a pure, total, deterministic comparison of the two
documents, field by field, returning the aggregate summary and the ordered
entry list. -/
def calculate_resume_diff (orig rev : ResumeDoc) :
    DiffSummary × List DiffEntry :=
  let entries :=
    titleDiff orig.title rev.title
    ++ summaryDiff orig.summary rev.summary
    ++ setFieldDiff .skill .high .low orig.technicalSkills rev.technicalSkills
    ++ setFieldDiff .certification .high .low orig.certificationsTraining
        rev.certificationsTraining
    ++ setFieldDiff .language .medium .low orig.languages rev.languages
    ++ setFieldDiff .award .medium .low orig.awards rev.awards
    ++ workExperienceDiff orig.workExperience rev.workExperience
  (mkSummary entries, entries)

/-!
## Resume Improver (spec-modelled)

`improve_resume` of `app/services/improver.py` is likewise not among the
provided sources; modelled from spec section 4.4 and the truncation test.
-/

/-- Error kinds of the improver: `missingSection` names the missing top-level
key (the code raises `ValueError("Missing required section: ...")`). -/
inductive ImproveError
  | missingSection (key : String)
deriving DecidableEq, Repr

/-- Modelled from the spec: the JSON-shaped value the external
`structured_complete` capability returned for one improve call -
`personalInfo` is `none` when the key is absent, `some []` when present but
empty, and the remaining document content is carried opaquely. -/
structure LLMImproveResult where
  personalInfo : Option (List (String × String))
  doc : ResumeDoc
deriving DecidableEq, Repr

/-- Modelled from the spec: `improve_resume` validates the external result
before returning - a missing or empty `personalInfo` section (the signature
of a truncated generation) fails with `MissingSectionError` naming the key,
and no partially-populated document is returned.  The external call itself is
opaque, so the function takes its result as input; the original resume, job
description, keywords and language do not affect the validation. -/
def improve_resume (llmResult : LLMImproveResult) :
    Except ImproveError ResumeDoc :=
  match llmResult.personalInfo with
  | none => .error (.missingSection "personalInfo")
  | some pi =>
      if pi = [] then .error (.missingSection "personalInfo")
      else .ok llmResult.doc

/-!
## Resume-data normalization (`_fix_resume_data` of `app/services/parser.py`)
-/

/-- The fields of a `customSections` item that is a mapping: its optional
integer `id`, its optional `title`, and the remaining key/value pairs. -/
structure ObjData where
  id : Option Int
  title : Option String
  extra : List (String × String)
deriving DecidableEq, Repr

/-- One raw `customSections` item as produced by the LLM: a string, a
mapping, or some other (malformed) value. -/
inductive CSItem
  | str : String → CSItem
  | obj : ObjData → CSItem
  | other : CSItem
deriving DecidableEq, Repr

/-- The loop body of `_fix_resume_data` over one `items` list, with the
`fixed_items` accumulator: a string becomes `{"title": item}`, a mapping gets
`id = len(fixed_items) + 1` when it lacks one, anything else is dropped. -/
def fixItemsAux : List CSItem → List CSItem → List CSItem
  | fixed, [] => fixed
  | fixed, .str s :: rest =>
      fixItemsAux (fixed ++ [.obj ⟨none, some s, []⟩]) rest
  | fixed, .obj o :: rest =>
      fixItemsAux (fixed ++ [.obj (match o.id with
        | none => { o with id := some ((fixed.length : Int) + 1) }
        | some _ => o)]) rest
  | fixed, .other :: rest => fixItemsAux fixed rest

/-- The normalized `items` list of one custom section. -/
def fixItems (items : List CSItem) : List CSItem :=
  fixItemsAux [] items

/-- One custom section: `items` is `some` when the section is a mapping whose
`"items"` key holds a list (the only case the code rewrites). -/
structure SectionData where
  items : Option (List CSItem)
deriving DecidableEq, Repr

/-- The part of the parsed resume data `_fix_resume_data` inspects. -/
structure ParsedResumeData where
  customSections : List (String × SectionData)
deriving DecidableEq, Repr

/-- `_fix_resume_data`: rewrite the `items` of every custom section; sections
without an items list are untouched, and the function never fails. -/
def fix_resume_data (d : ParsedResumeData) : ParsedResumeData :=
  ⟨d.customSections.map (fun sect =>
    match sect.2.items with
    | some l => (sect.1, ⟨some (fixItems l)⟩)
    | none => sect)⟩

/-!
## Lock/step structure of the registry operations

`Database` guards master assignment with the class-level
`_master_resume_lock` (an `asyncio.Lock`).  Each coroutine is abstracted to
the sequence of lock operations and database statements it performs, and a
scheduler interleaves two such step lists; a step list is only schedulable
respecting the lock (acquiring blocks while the other holds it - database
statements themselves never block). -/

/-- The database statements of the three operations, as atomic steps. -/
inductive DbAct
  | readMaster
  | demoteFailedMaster
  | insertResume
  | checkTargetExists
  | demoteCurrentMaster
  | promoteTarget
deriving DecidableEq, Repr

/-- One step of a coroutine: acquire or release `_master_resume_lock`, or
execute a database statement. -/
inductive Step
  | acquire
  | release
  | db : DbAct → Step
deriving DecidableEq, Repr

/-- The step list of `create_resume_atomic_master`: the whole body (master
lookup, conditional demotion, and the nested `create_resume` INSERT) runs
inside `async with self._master_resume_lock`. -/
def cramSteps : List Step :=
  [.acquire, .db .readMaster, .db .demoteFailedMaster, .db .insertResume,
   .release]

/-- The step list of `set_master_resume`: its three statements run WITHOUT
acquiring `_master_resume_lock`. -/
def smrSteps : List Step :=
  [.db .checkTargetExists, .db .demoteCurrentMaster, .db .promoteTarget]

/-- The step list of a plain `create_resume` call: one INSERT, no lock. -/
def crSteps : List Step :=
  [.db .insertResume]

/-- Lock transition for one step taken by coroutine `who` (`false` = first
coroutine, `true` = second): `none` means the step cannot be taken now. -/
def stepLock (owner : Option Bool) (who : Bool) :
    Step → Option (Option Bool)
  | .acquire => if owner = none then some (some who) else none
  | .release => if owner = some who then some none else none
  | .db _ => some owner

/-- `validRun owner p1 p2 sched` checks that the schedule `sched` (which
coroutine moves at each instant) runs both step lists to completion while
respecting the lock. -/
def validRun : Option Bool → List Step → List Step → List Bool → Bool
  | _, p1, p2, [] => p1.isEmpty && p2.isEmpty
  | owner, p1, p2, false :: ts =>
      match p1 with
      | [] => false
      | s :: rest =>
          match stepLock owner false s with
          | none => false
          | some owner2 => validRun owner2 rest p2 ts
  | owner, p1, p2, true :: ts =>
      match p2 with
      | [] => false
      | s :: rest =>
          match stepLock owner true s with
          | none => false
          | some owner2 => validRun owner2 p1 rest ts

/-- A step list "executes under the registry-wide mutual-exclusion section"
when every one of its database statements happens while it holds
`_master_resume_lock`. -/
def underLockAux : Bool → List Step → Bool
  | _, [] => true
  | held, .acquire :: rest => if held then false else underLockAux true rest
  | held, .release :: rest => if held then underLockAux false rest else false
  | held, .db _ :: rest => held && underLockAux held rest

/-- Whether every database statement of the step list runs while the lock is
held. -/
def executesUnderLock (p : List Step) : Bool :=
  underLockAux false p

/-!
## Helper lemmas about the registry operations
-/

/-- A row appended with `is_master = false` leaves the master rows unchanged. -/
lemma masterRows_append_nonmaster (s : List ResumeRec) (r : ResumeRec)
    (h : r.is_master = false) : masterRows (s ++ [r]) = masterRows s := by
  unfold masterRows
  rw [List.filter_append]
  simp [h]

/-- A row appended with `is_master = true` appends itself to the master rows. -/
lemma masterRows_append_master (s : List ResumeRec) (r : ResumeRec)
    (h : r.is_master = true) : masterRows (s ++ [r]) = masterRows s ++ [r] := by
  unfold masterRows
  rw [List.filter_append]
  simp [h]

/-- Demoting (by id) the unique master row clears the master set. -/
lemma masterRows_demoteById (s : List ResumeRec) (m : ResumeRec)
    (h : masterRows s = [m]) : masterRows (demoteById s m.id) = [] := by
  unfold masterRows demoteById
  rw [List.filter_eq_nil_iff]
  intro a ha
  obtain ⟨r, hr, rfl⟩ := List.mem_map.1 ha
  by_cases hid : r.id = m.id
  · simp [hid]
  · rw [if_neg hid]
    intro hmas
    have : r ∈ masterRows s := by
      unfold masterRows
      exact List.mem_filter.2 ⟨hr, hmas⟩
    rw [h, List.mem_singleton] at this
    exact hid (by rw [this])

/-- Counting occurrences of one key in a duplicate-free list of keys. -/
lemma countP_key_le_one (l : List Nat) (h : l.Nodup) (i : Nat) :
    l.countP (fun x => decide (x = i)) ≤ 1 := by
  induction l with
  | nil => simp
  | cons a t ih =>
    rw [List.nodup_cons] at h
    rw [List.countP_cons]
    by_cases hai : a = i
    · have hz : t.countP (fun x => decide (x = i)) = 0 := by
        rw [List.countP_eq_zero]
        intro x hx
        simp only [decide_eq_true_eq]
        intro hxi
        exact h.1 (by rw [hai]; exact hxi ▸ hx)
      simp [hz, hai]
    · rw [if_neg (by simp [hai])]
      simpa using ih h.2

/-- In a table with duplicate-free primary keys, at most one row matches a
given id. -/
lemma length_filter_id_le_one (s : List ResumeRec) (rid : Nat)
    (h : NodupIds s) : (s.filter (fun r => decide (r.id = rid))).length ≤ 1 := by
  rw [← List.countP_eq_length_filter]
  have hmap : (s.map (fun r => r.id)).countP (fun x => decide (x = rid)) =
      s.countP (fun r => decide (r.id = rid)) := by
    rw [List.countP_map]
    rfl
  rw [← hmap]
  exact countP_key_le_one _ h rid

/-- A pointwise-monotone rewriting of the rows cannot increase the number of
rows matched by a filter. -/
lemma length_filter_map_le {α : Type} (g : α → α) (p : α → Bool) :
    ∀ l : List α, (∀ a ∈ l, p (g a) = true → p a = true) →
      ((l.map g).filter p).length ≤ (l.filter p).length := by
  intro l
  induction l with
  | nil => intro _; simp
  | cons a t ih =>
    intro h
    have iht := ih (fun x hx => h x (List.mem_cons_of_mem a hx))
    simp only [List.map_cons, List.filter_cons]
    by_cases hga : p (g a) = true
    · rw [if_pos hga, if_pos (h a (List.mem_cons_self a t) hga)]
      simpa using Nat.succ_le_succ iht
    · rw [if_neg hga]
      by_cases hpa : p a = true
      · rw [if_pos hpa]
        simp only [List.length_cons]
        exact Nat.le_succ_of_le iht
      · rw [if_neg hpa]
        exact iht

/-!
## Claim C7 - `set_master_resume` on a nonexistent id
-/

/-- C7: for every collection state and every id not belonging to any stored
resume, `set_master_resume` returns the failure result `false` (it does not
raise) and leaves the state - in particular every `is_master` flag, hence the
current master - unchanged. -/
theorem set_master_resume_nonexistent_id (s : List ResumeRec) (rid : Nat)
    (h : ∀ r ∈ s, r.id ≠ rid) :
    set_master_resume s rid = .ok (s, false) := by
  unfold set_master_resume
  have hf : s.filter (fun r => decide (r.id = rid)) = [] := by
    rw [List.filter_eq_nil_iff]
    intro r hr
    simp [h r hr]
  rw [hf]

/-- Witness for C7 at a concrete one-master state and the absent id 2. -/
theorem set_master_resume_nonexistent_id_witness :
    set_master_resume [⟨1, "a", true, false, none, Status.ready⟩] 2 =
      .ok ([⟨1, "a", true, false, none, Status.ready⟩], false) :=
  set_master_resume_nonexistent_id
    [⟨1, "a", true, false, none, Status.ready⟩] 2 (by decide)

/-!
## Claim C2 - behaviour of `create_resume_atomic_master`
-/

/-- A two-master state (well-formed as far as primary keys go).  The claim
quantifies over every prior collection state; this one is reachable through
`create_resume(is_master=True)` (see the C1 counterexample). -/
def twoMasterState : List ResumeRec :=
  [⟨1, "a", true, false, none, Status.pending⟩,
   ⟨2, "b", true, false, none, Status.pending⟩]

/-- C2 counterexample: the claim covers "every prior collection state" and its
"every other case" arm demands that a non-master resume be created; but on a
state holding two masters (neither failed) `scalar_one_or_none` raises
`MultipleResultsFound`, so `create_resume_atomic_master` creates nothing at
all. -/
theorem create_resume_atomic_master_two_masters_raises :
    NodupIds twoMasterState ∧
    masterRows twoMasterState ≠ [] ∧
    (∀ m ∈ masterRows twoMasterState, m.processing_status ≠ Status.failed) ∧
    create_resume_atomic_master twoMasterState 3 "c" Status.pending =
      .error .multipleResultsFound ∧
    ∀ res, create_resume_atomic_master twoMasterState 3 "c" Status.pending ≠
      Except.ok res := by
  refine ⟨by decide, by decide, by decide, rfl, ?_⟩
  intro res h
  rw [show create_resume_atomic_master twoMasterState 3 "c" Status.pending =
    .error .multipleResultsFound from rfl] at h
  exact Except.noConfusion h

/-- C2 amended: on every prior collection state holding AT MOST ONE master,
`create_resume_atomic_master` creates the new resume as master when no master
exists; when the unique master has `processing_status = failed` it demotes
that master (by id) and creates the new resume as master; otherwise it creates
the new resume as non-master and touches nothing else. -/
theorem create_resume_atomic_master_cases (s : List ResumeRec) (newId : Nat)
    (content : String) (ps : Status) :
    (masterRows s = [] →
      create_resume_atomic_master s newId content ps =
        .ok (s ++ [⟨newId, content, true, false, none, ps⟩],
             ⟨newId, content, true, false, none, ps⟩)) ∧
    (∀ m, masterRows s = [m] → m.processing_status = Status.failed →
      create_resume_atomic_master s newId content ps =
        .ok (demoteById s m.id ++ [⟨newId, content, true, false, none, ps⟩],
             ⟨newId, content, true, false, none, ps⟩)) ∧
    (∀ m, masterRows s = [m] → m.processing_status ≠ Status.failed →
      create_resume_atomic_master s newId content ps =
        .ok (s ++ [⟨newId, content, false, false, none, ps⟩],
             ⟨newId, content, false, false, none, ps⟩)) := by
  refine ⟨?_, ?_, ?_⟩
  · intro h
    unfold create_resume_atomic_master get_master_resume_internal
    rw [h]
    rfl
  · intro m h hfail
    unfold create_resume_atomic_master get_master_resume_internal
    rw [h]
    simp [create_resume, hfail]
  · intro m h hfail
    unfold create_resume_atomic_master get_master_resume_internal
    rw [h]
    simp [create_resume, hfail]

/-- Witness for C2 (amended) on the stuck-master recovery arm: a lone failed
master is demoted and the new resume is created as master. -/
theorem create_resume_atomic_master_cases_witness :
    create_resume_atomic_master [⟨1, "a", true, false, none, Status.failed⟩]
        2 "b" Status.pending =
      .ok ([⟨1, "a", false, false, none, Status.failed⟩,
            ⟨2, "b", true, false, none, Status.pending⟩],
           ⟨2, "b", true, false, none, Status.pending⟩) := by
  have h := (create_resume_atomic_master_cases
    [⟨1, "a", true, false, none, Status.failed⟩] 2 "b" Status.pending).2.1
    ⟨1, "a", true, false, none, Status.failed⟩ (by decide) (by decide)
  rw [h]
  rfl

/-!
## Claim C1 - preservation of the at-most-one-master invariant
-/

/-- A committed state with one master (used by the C1 counterexample). -/
def oneMasterState : List ResumeRec :=
  [⟨1, "a", true, false, none, Status.ready⟩]

/-- The same state extended by a non-master row with id 2. -/
def oneMasterTwoRowState : List ResumeRec :=
  [⟨1, "a", true, false, none, Status.ready⟩,
   ⟨2, "b", false, false, none, Status.ready⟩]

/-- C1 counterexample: not every registry operation preserves the invariant.
From a committed one-master state, `create_resume` called with
`is_master=True` commits a second master, and `update_resume` with an update
setting `is_master` to `True` does the same - both operations accept those
arguments.  (The remaining operations do preserve the invariant; see the
amended theorem.) -/
theorem create_and_update_resume_break_master_invariant :
    (NodupIds oneMasterState ∧ atMostOneMaster oneMasterState ∧
      ¬ atMostOneMaster
        (create_resume oneMasterState 2 "b" true false none Status.pending).1) ∧
    (NodupIds oneMasterTwoRowState ∧ atMostOneMaster oneMasterTwoRowState ∧
      update_resume oneMasterTwoRowState 2
          { is_master := some true } =
        .ok ([⟨1, "a", true, false, none, Status.ready⟩,
              ⟨2, "b", true, false, none, Status.ready⟩],
             ⟨2, "b", true, false, none, Status.ready⟩) ∧
      ¬ atMostOneMaster
        [⟨1, "a", true, false, none, Status.ready⟩,
         ⟨2, "b", true, false, none, Status.ready⟩]) := by
  exact ⟨⟨by decide, by decide, by decide⟩, ⟨by decide, by decide, rfl, by decide⟩⟩

/-- Filtering a rewritten table by `p` matches filtering the original table
by a pointwise-equivalent predicate. -/
lemma length_filter_map_congr {α : Type} (f : α → α) (p q : α → Bool) :
    ∀ l : List α, (∀ a ∈ l, p (f a) = q a) →
      ((l.map f).filter p).length = (l.filter q).length := by
  intro l
  induction l with
  | nil => intro _; rfl
  | cons a t ih =>
    intro h
    have iht := ih (fun x hx => h x (List.mem_cons_of_mem a hx))
    simp only [List.map_cons, List.filter_cons]
    rw [h a (List.mem_cons_self a t)]
    by_cases hq : q a = true
    · rw [if_pos hq, if_pos hq, List.length_cons, List.length_cons, iht]
    · rw [if_neg hq, if_neg hq, iht]

/-- `create_resume_atomic_master` preserves the invariant whenever it
returns successfully. -/
lemma cram_preserves_atMostOne {s : List ResumeRec} (hm : atMostOneMaster s)
    (newId : Nat) (content : String) (ps : Status) {s' : List ResumeRec}
    {r : ResumeRec}
    (hok : create_resume_atomic_master s newId content ps = .ok (s', r)) :
    atMostOneMaster s' := by
  rcases hmr : masterRows s with _ | ⟨m, _ | ⟨m2, rest2⟩⟩
  · have hg : get_master_resume_internal s = .ok none := by
      unfold get_master_resume_internal; rw [hmr]
    unfold create_resume_atomic_master at hok
    rw [hg] at hok
    simp only [create_resume] at hok
    injection hok with hpair
    injection hpair with hs hr
    subst hs
    unfold atMostOneMaster
    rw [masterRows_append_master _ _ rfl, hmr]
    simp
  · have hg : get_master_resume_internal s = .ok (some m) := by
      unfold get_master_resume_internal; rw [hmr]
    unfold create_resume_atomic_master at hok
    rw [hg] at hok
    dsimp only [] at hok
    by_cases hf : m.processing_status = Status.failed
    · rw [if_pos hf] at hok
      simp only [create_resume] at hok
      injection hok with hpair
      injection hpair with hs hr
      subst hs
      unfold atMostOneMaster
      rw [masterRows_append_master _ _ rfl, masterRows_demoteById s m hmr]
      simp
    · rw [if_neg hf] at hok
      simp only [create_resume] at hok
      injection hok with hpair
      injection hpair with hs hr
      subst hs
      unfold atMostOneMaster
      rw [masterRows_append_nonmaster _ _ rfl, hmr]
      simp
  · exfalso
    unfold atMostOneMaster at hm
    rw [hmr] at hm
    simp at hm

/-- `update_resume` preserves the invariant when the update does not set
`is_master` to true. -/
lemma update_preserves_atMostOne {s : List ResumeRec} (hm : atMostOneMaster s)
    (rid : Nat) (u : ResumeUpdates) (hu : u.is_master ≠ some true)
    {s' : List ResumeRec} {r : ResumeRec}
    (hok : update_resume s rid u = .ok (s', r)) : atMostOneMaster s' := by
  have hpt : ∀ a ∈ s,
      ((fun r0 : ResumeRec =>
        if r0.id = rid then applyUpdates u r0 else r0) a).is_master = true →
      a.is_master = true := by
    intro a _ h
    dsimp only [] at h
    by_cases hid : a.id = rid
    · rw [if_pos hid] at h
      unfold applyUpdates at h
      cases hui : u.is_master with
      | none => rw [hui] at h; simpa using h
      | some b =>
        cases b
        · rw [hui] at h; simp at h
        · exact absurd hui hu
    · rwa [if_neg hid] at h
  have hle : atMostOneMaster
      (s.map (fun r0 : ResumeRec =>
        if r0.id = rid then applyUpdates u r0 else r0)) := by
    unfold atMostOneMaster masterRows
    exact le_trans (length_filter_map_le _ _ s hpt) hm
  unfold update_resume at hok
  dsimp only [] at hok
  rcases hflt : (s.map (fun r0 : ResumeRec =>
      if r0.id = rid then applyUpdates u r0 else r0)).filter
      (fun r0 => decide (r0.id = rid)) with _ | ⟨a, _ | ⟨b, t⟩⟩
  · rw [hflt] at hok
    exact Except.noConfusion hok
  · rw [hflt] at hok
    injection hok with hpair
    injection hpair with hs hr
    subst hs
    exact hle
  · rw [hflt] at hok
    exact Except.noConfusion hok

/-- `set_master_resume` preserves the invariant on a committed state. -/
lemma set_master_preserves_atMostOne {s : List ResumeRec}
    (hids : NodupIds s) (hm : atMostOneMaster s) (rid : Nat)
    {s' : List ResumeRec} {b : Bool}
    (hok : set_master_resume s rid = .ok (s', b)) : atMostOneMaster s' := by
  unfold set_master_resume at hok
  rcases hflt : s.filter (fun r => decide (r.id = rid)) with _ | ⟨t0, _ | ⟨t1, ts⟩⟩
  · rw [hflt] at hok
    injection hok with hpair
    injection hpair with hs hb
    subst hs
    exact hm
  · rw [hflt] at hok
    dsimp only [] at hok
    injection hok with hpair
    injection hpair with hs hb
    subst hs
    unfold atMostOneMaster masterRows
    rw [List.map_map]
    have hpt : ∀ a ∈ s,
        (((fun r0 : ResumeRec =>
            if r0.id = rid then { r0 with is_master := true } else r0) ∘
          (fun r0 : ResumeRec =>
            if r0.is_master = true then { r0 with is_master := false }
            else r0)) a).is_master = decide (a.id = rid) := by
      intro a _
      by_cases hid : a.id = rid <;> by_cases hma : a.is_master = true <;>
        simp [Function.comp, hid, hma]
    rw [length_filter_map_congr _ _ _ s hpt]
    exact length_filter_id_le_one s rid hids
  · rw [hflt] at hok
    exact Except.noConfusion hok

/-- `delete_resume` preserves the invariant whenever it commits (it only
removes rows; a foreign-key violation commits nothing). -/
lemma delete_preserves_atMostOne (st : DBState)
    (hm : atMostOneMaster st.resumes) (rid : Nat) {st' : DBState} {b : Bool}
    (hok : delete_resume st rid = .ok (st', b)) :
    atMostOneMaster st'.resumes := by
  unfold delete_resume at hok
  dsimp only [] at hok
  split at hok
  · exact Except.noConfusion hok
  · split at hok
    · exact Except.noConfusion hok
    · split at hok
      · exact Except.noConfusion hok
      · injection hok with hpair
        injection hpair with hst hb
        subst hst
        unfold atMostOneMaster masterRows
        have hsub : List.Sublist
            ((st.resumes.filter
              (fun r => !decide (r.parent_id = some rid))).filter
              (fun r => !decide (r.id = rid))) st.resumes :=
          List.Sublist.trans (List.filter_sublist _) (List.filter_sublist _)
        exact le_trans (List.Sublist.length_le
          (List.Sublist.filter (fun r : ResumeRec => r.is_master) hsub)) hm

/-- C1 amended: from any committed state (duplicate-free primary keys, at
most one master), each registry operation preserves the at-most-one-master
invariant, provided `create_resume` is invoked with `is_master = false` (its
default) and `update_resume` with an update that does not set `is_master` to
true; `create_resume_atomic_master`, `set_master_resume` and `delete_resume`
preserve it unconditionally. -/
theorem registry_operations_preserve_master_invariant (s : List ResumeRec)
    (hids : NodupIds s) (hm : atMostOneMaster s) :
    (∀ newId content is_confirmed parent_id ps,
      atMostOneMaster
        (create_resume s newId content false is_confirmed parent_id ps).1) ∧
    (∀ newId content ps s' r,
      create_resume_atomic_master s newId content ps = .ok (s', r) →
      atMostOneMaster s') ∧
    (∀ rid u, u.is_master ≠ some true →
      ∀ s' r, update_resume s rid u = .ok (s', r) → atMostOneMaster s') ∧
    (∀ rid s' b, set_master_resume s rid = .ok (s', b) →
      atMostOneMaster s') ∧
    (∀ jobs imps rid st' b,
      delete_resume ⟨s, jobs, imps⟩ rid = .ok (st', b) →
      atMostOneMaster st'.resumes) := by
  refine ⟨?_, ?_, ?_, ?_, ?_⟩
  · intro newId content is_confirmed parent_id ps
    unfold atMostOneMaster create_resume
    rw [masterRows_append_nonmaster _ _ rfl]
    exact hm
  · intro newId content ps s' r hok
    exact cram_preserves_atMostOne hm newId content ps hok
  · intro rid u hu s' r hok
    exact update_preserves_atMostOne hm rid u hu hok
  · intro rid s' b hok
    exact set_master_preserves_atMostOne hids hm rid hok
  · intro jobs imps rid st' b hok
    exact delete_preserves_atMostOne ⟨s, jobs, imps⟩ hm rid hok

/-- Witness for C1 (amended) at a concrete one-master state: creating a
non-master resume keeps the invariant. -/
theorem registry_operations_preserve_master_invariant_witness :
    atMostOneMaster
      (create_resume oneMasterState 2 "b" false false none Status.pending).1 :=
  (registry_operations_preserve_master_invariant oneMasterState
    (by decide) (by decide)).1 2 "b" false none Status.pending

/-!
## Claim C10 - scope of `delete_resume`
-/

/-- State for the C10 counterexample: a single resume whose `parent_id` is
its own id (a committed, foreign-key-consistent state reachable via
`update_resume`); no improvements or jobs, so no DELETE can violate a
foreign key. -/
def selfParentState : DBState :=
  { resumes := [⟨1, "a", false, false, some 1, Status.ready⟩],
    jobs := [],
    improvements := [] }

/-- C10 counterexample: resume 1 exists, the call deletes it (as a child of
itself, since its `parent_id` equals its own id) and commits - yet it
returns `false`, because the return value is the rowcount of the FINAL
delete, which finds the row already gone.  This refutes "returns true if and
only if the resume row itself existed before the call". -/
theorem delete_resume_counterexample :
    (∃ r ∈ selfParentState.resumes, r.id = 1) ∧
    delete_resume selfParentState 1 =
      .ok ({ resumes := [], jobs := [], improvements := [] }, false) :=
  ⟨by decide, rfl⟩

/-- The state the spec's reading of "deletes every improvement referencing a
child as original" would require the code to handle: resume 2 is a child of
resume 1 and improvement 10 references it as ORIGINAL resume. -/
def childOriginalState : DBState :=
  { resumes :=
      [⟨1, "a", false, false, none, Status.ready⟩,
       ⟨2, "b", false, false, some 1, Status.ready⟩,
       ⟨3, "c", false, false, none, Status.ready⟩],
    jobs := [],
    improvements := [⟨10, 2, 3, none⟩] }

/-- On such a state the child DELETE violates the non-nullable foreign key
`improvements.original_resume_id -> resumes.id`, so `delete_resume` raises
IntegrityError and commits nothing: the program never exhibits a committed
post-state at all here, let alone one deleting that improvement. -/
lemma delete_resume_child_original_raises :
    delete_resume childOriginalState 1 = .error .integrityError := rfl

/-- Two distinct rows of a duplicate-free-id table cannot share an id. -/
lemma nodup_ids_inj : ∀ s : List ResumeRec, NodupIds s →
    ∀ a ∈ s, ∀ b ∈ s, a.id = b.id → a = b := by
  intro s
  induction s with
  | nil => intro _ a ha; exact absurd ha (List.not_mem_nil _)
  | cons x t ih =>
    intro h a ha b hb hab
    unfold NodupIds at h
    rw [List.map_cons, List.nodup_cons] at h
    rcases List.mem_cons.1 ha with rfl | ha2
    · rcases List.mem_cons.1 hb with rfl | hb2
      · rfl
      · exfalso
        apply h.1
        rw [hab]
        exact List.mem_map_of_mem _ hb2
    · rcases List.mem_cons.1 hb with rfl | hb2
      · exfalso
        apply h.1
        rw [← hab]
        exact List.mem_map_of_mem _ ha2
      · exact ih h.2 a ha2 b hb2 hab

/-- Under primary-key uniqueness, a deleted child's id has no surviving
carrier: the id belonged to the row with `parent_id = rid`, which the child
DELETE removed. -/
lemma child_id_gone {st : DBState} {rid p : Nat}
    (hids : NodupIds st.resumes) (hc : p ∈ childIds st rid) :
    resumeIdExists
      (st.resumes.filter (fun r => !decide (r.parent_id = some rid))) p =
      false := by
  by_contra hne
  rw [Bool.not_eq_false] at hne
  unfold resumeIdExists at hne
  rw [List.any_eq_true] at hne
  obtain ⟨rr, hrr, hrrid⟩ := hne
  rw [List.mem_filter] at hrr
  unfold childIds at hc
  obtain ⟨rc, hrc, hrcid⟩ := List.mem_map.1 hc
  rw [List.mem_filter] at hrc
  have hrceq : rc.parent_id = some rid := by
    have := hrc.2
    simpa using this
  have hrrne : ¬ rr.parent_id = some rid := by
    have := hrr.2
    simpa using this
  have hsame : rc.id = rr.id := by
    rw [hrcid]
    exact (of_decide_eq_true hrrid).symm
  have := nodup_ids_inj st.resumes hids rc hrc.1 rr hrr.1 hsame
  rw [this] at hrceq
  exact hrrne hrceq

/-- C10 amended: when `delete_resume(id)` commits, it has deleted the resume
row, every child resume (`parent_id = id`), every improvement referencing
the resume itself as original or tailored or a child as tailored, and every
job whose `resume_id` references it; moreover, on a committed
(duplicate-free-id) state a successful return guarantees that NO surviving
improvement references a child in either role, no surviving job references
a child, and no grandchild survived - on states with such references one of
the DELETE statements violates a foreign key, so the call raises
IntegrityError and commits nothing.  The returned Bool is true if and only
if a resume row with that id existed whose `parent_id` was not the id
itself (a self-parented row is removed by the child delete, and the final
delete then reports zero rows). -/
theorem delete_resume_characterization (st : DBState) (rid : Nat)
    (hids : NodupIds st.resumes) (st' : DBState) (b : Bool)
    (hok : delete_resume st rid = .ok (st', b)) :
    (∀ r ∈ st'.resumes, r.id ≠ rid ∧ r.parent_id ≠ some rid ∧
      ∀ p, r.parent_id = some p → ¬ p ∈ childIds st rid) ∧
    (∀ i ∈ st'.improvements, i.original_resume_id ≠ rid ∧
      i.tailored_resume_id ≠ rid ∧
      ¬ i.tailored_resume_id ∈ childIds st rid ∧
      ¬ i.original_resume_id ∈ childIds st rid) ∧
    (∀ j ∈ st'.jobs, j.resume_id ≠ some rid ∧
      ∀ p, j.resume_id = some p → ¬ p ∈ childIds st rid) ∧
    (b = true ↔ ∃ r ∈ st.resumes, r.id = rid ∧ r.parent_id ≠ some rid) := by
  unfold delete_resume at hok
  dsimp only [] at hok
  split at hok
  · exact Except.noConfusion hok
  · split at hok
    · exact Except.noConfusion hok
    · split at hok
      · exact Except.noConfusion hok
      · rename_i h1 h2 h3
        rw [Bool.not_eq_true] at h1
        unfold violatesResumeFK at h1
        rw [Bool.or_eq_false_iff, Bool.or_eq_false_iff] at h1
        injection hok with hpair
        injection hpair with hst hb
        subst hst
        refine ⟨?_, ?_, ?_, ?_⟩
        · intro r hr
          rw [List.mem_filter, List.mem_filter] at hr
          obtain ⟨⟨hrs, hpar⟩, hid⟩ := hr
          refine ⟨by simpa using hid, by simpa using hpar, ?_⟩
          intro p hp hpc
          have hrow := List.any_eq_false.1 h1.1.1 r
            (List.mem_filter.2 ⟨hrs, hpar⟩)
          rw [Bool.not_eq_true, hp] at hrow
          dsimp only [] at hrow
          rw [decide_eq_true hpc, Bool.true_and, Bool.not_eq_false'] at hrow
          rw [child_id_gone hids hpc] at hrow
          exact Bool.noConfusion hrow
        · intro i hi
          rw [List.mem_filter, List.mem_filter] at hi
          obtain ⟨⟨his, htail⟩, hdirect⟩ := hi
          have htail2 : ¬ i.tailored_resume_id ∈ childIds st rid := by
            simpa using htail
          have hdirect2 : ¬ (i.original_resume_id = rid ∨
              i.tailored_resume_id = rid) := by
            simpa using hdirect
          refine ⟨fun hx => hdirect2 (Or.inl hx),
            fun hx => hdirect2 (Or.inr hx), htail2, ?_⟩
          intro hoc
          have hrow := List.any_eq_false.1 h1.1.2 i
            (List.mem_filter.2 ⟨his, htail⟩)
          rw [Bool.not_eq_true, Bool.or_eq_false_iff] at hrow
          have horow := hrow.1
          rw [decide_eq_true hoc, Bool.true_and, Bool.not_eq_false'] at horow
          rw [child_id_gone hids hoc] at horow
          exact Bool.noConfusion horow
        · intro j hj
          rw [List.mem_filter] at hj
          refine ⟨by simpa using hj.2, ?_⟩
          intro p hp hpc
          have hrow := List.any_eq_false.1 h1.2 j hj.1
          rw [Bool.not_eq_true, hp] at hrow
          dsimp only [] at hrow
          rw [decide_eq_true hpc, Bool.true_and, Bool.not_eq_false'] at hrow
          rw [child_id_gone hids hpc] at hrow
          exact Bool.noConfusion hrow
        · rw [← hb, decide_eq_true_eq]
          constructor
          · intro h
            obtain ⟨a, ha⟩ := List.exists_mem_of_length_pos h
            rw [List.mem_filter, List.mem_filter] at ha
            exact ⟨a, ha.1.1, by simpa using ha.2, by simpa using ha.1.2⟩
          · rintro ⟨r, hr, hid, hpar⟩
            have hmem : r ∈ (st.resumes.filter
                (fun r => !decide (r.parent_id = some rid))).filter
                (fun r => decide (r.id = rid)) := by
              rw [List.mem_filter, List.mem_filter]
              exact ⟨⟨hr, by simpa using hpar⟩, by simpa using hid⟩
            exact List.length_pos_of_mem hmem

/-- State for the C10 witness: resume 2 is a child of resume 1, and the one
improvement references the parent as original and the child as tailored, so
the delete commits. -/
def deleteOkState : DBState :=
  { resumes :=
      [⟨1, "a", false, false, none, Status.ready⟩,
       ⟨2, "b", false, false, some 1, Status.ready⟩],
    jobs := [],
    improvements := [⟨10, 1, 2, none⟩] }

/-- Witness for C10 (amended) at a concrete committed delete: the return
value is true exactly because resume 1 existed and was not its own child. -/
theorem delete_resume_characterization_witness :
    (true = true ↔ ∃ r ∈ deleteOkState.resumes, r.id = 1 ∧
      r.parent_id ≠ some 1) :=
  (delete_resume_characterization deleteOkState 1 (by decide)
    { resumes := [], jobs := [], improvements := [] } true rfl).2.2.2

/-!
## Claim C9 - `_fix_resume_data` normalization of customSections items
-/

/-- Whether a customSections item is a mapping. -/
def isObjB : CSItem → Bool
  | .obj _ => true
  | _ => false

/-- The `id` field carried by a customSections item (mappings only). -/
def itemIdOf : CSItem → Option Int
  | .obj o => o.id
  | _ => none

/-- The property claimed of each normalized section: every item is a mapping
carrying an integer id that is unique within the section. -/
def sectionItemsOk (l : List CSItem) : Prop :=
  (∀ it ∈ l, isObjB it = true ∧ (itemIdOf it).isSome = true) ∧
  (l.map itemIdOf).Nodup

instance (l : List CSItem) : Decidable (sectionItemsOk l) := by
  unfold sectionItemsOk; infer_instance

/-- Input items for the C9 counterexample: a mapping that already carries
id 2, a mapping without an id, and a plain string. -/
def fixCexItems : List CSItem :=
  [CSItem.obj ⟨some 2, none, []⟩, CSItem.obj ⟨none, none, []⟩,
   CSItem.str "s"]

/-- A parsed-resume input holding that items list in one custom section. -/
def fixCexData : ParsedResumeData :=
  ⟨[("projects", ⟨some fixCexItems⟩)]⟩

/-- C9 counterexample: after normalization the id-less mapping receives
`len(fixed_items)+1 = 2`, colliding with the id 2 already present, and the
coerced string item `{"title": "s"}` receives NO id at all - so the
normalized section neither gives every item an integer id nor keeps ids
unique within the section. -/
theorem fix_resume_data_counterexample :
    fix_resume_data fixCexData =
      ⟨[("projects", ⟨some [CSItem.obj ⟨some 2, none, []⟩,
        CSItem.obj ⟨some 2, none, []⟩,
        CSItem.obj ⟨none, some "s", []⟩]⟩)]⟩ ∧
    ¬ sectionItemsOk (fixItems fixCexItems) := by
  refine ⟨by decide, by decide⟩

/-- Everything already in the accumulator survives to the final result. -/
lemma fixItemsAux_mem_of_mem_acc :
    ∀ (rest fixed : List CSItem) (it : CSItem), it ∈ fixed →
      it ∈ fixItemsAux fixed rest := by
  intro rest
  induction rest with
  | nil => intro fixed it h; exact h
  | cons hd t ih =>
    intro fixed it h
    cases hd with
    | str s => exact ih _ it (List.mem_append_left _ h)
    | obj o => exact ih _ it (List.mem_append_left _ h)
    | other => exact ih _ it h

/-- Every item of the normalized list is a mapping. -/
lemma fixItemsAux_all_obj :
    ∀ (rest fixed : List CSItem),
      (∀ it ∈ fixed, isObjB it = true) →
      ∀ it ∈ fixItemsAux fixed rest, isObjB it = true := by
  intro rest
  induction rest with
  | nil => intro fixed h it hit; exact h it hit
  | cons hd t ih =>
    intro fixed h it hit
    cases hd with
    | str s =>
      refine ih _ ?_ it hit
      intro x hx
      rcases List.mem_append.1 hx with hx | hx
      · exact h x hx
      · rw [List.mem_singleton.1 hx]; rfl
    | obj o =>
      refine ih _ ?_ it hit
      intro x hx
      rcases List.mem_append.1 hx with hx | hx
      · exact h x hx
      · rw [List.mem_singleton.1 hx]; rfl
    | other => exact ih _ h it hit

/-- A normalized mapping without an id can only be a coerced string item
`{"title": s}`. -/
lemma fixItemsAux_id_none_is_coerced_string :
    ∀ (rest fixed : List CSItem),
      (∀ o : ObjData, CSItem.obj o ∈ fixed → o.id = none →
        ∃ s, o = ⟨none, some s, []⟩) →
      ∀ o : ObjData, CSItem.obj o ∈ fixItemsAux fixed rest → o.id = none →
        ∃ s, o = ⟨none, some s, []⟩ := by
  intro rest
  induction rest with
  | nil => intro fixed h o ho; exact h o ho
  | cons hd t ih =>
    intro fixed h o ho hid
    cases hd with
    | str s =>
      refine ih _ ?_ o ho hid
      intro o2 ho2 hid2
      rcases List.mem_append.1 ho2 with ho2 | ho2
      · exact h o2 ho2 hid2
      · exact ⟨s, by injection (List.mem_singleton.1 ho2)⟩
    | obj o1 =>
      refine ih _ ?_ o ho hid
      intro o2 ho2 hid2
      rcases List.mem_append.1 ho2 with ho2 | ho2
      · exact h o2 ho2 hid2
      · exfalso
        have heq := List.mem_singleton.1 ho2
        cases hcase : o1.id with
        | none =>
          rw [hcase] at heq
          dsimp only [] at heq
          injection heq with heq2
          rw [heq2] at hid2
          simp at hid2
        | some x =>
          rw [hcase] at heq
          dsimp only [] at heq
          injection heq with heq2
          rw [heq2] at hid2
          rw [hcase] at hid2
          simp at hid2
    | other => exact ih _ h o ho hid

/-- Every mapping of the input survives normalization with an integer id,
its other fields unchanged; a mapping that already carried an id is kept
verbatim. -/
lemma fixItemsAux_obj_gets_id :
    ∀ (rest fixed : List CSItem) (o : ObjData), CSItem.obj o ∈ rest →
      ∃ o2 : ObjData, CSItem.obj o2 ∈ fixItemsAux fixed rest ∧
        o2.id.isSome = true ∧ o2.title = o.title ∧ o2.extra = o.extra ∧
        (∀ x, o.id = some x → o2 = o) := by
  intro rest
  induction rest with
  | nil => intro fixed o ho; exact absurd ho (List.not_mem_nil _)
  | cons hd t ih =>
    intro fixed o ho
    cases hd with
    | str s =>
      rcases List.mem_cons.1 ho with ho | ho
      · exact CSItem.noConfusion ho
      · exact ih _ o ho
    | obj o1 =>
      rcases List.mem_cons.1 ho with ho | ho
      · have hoo : o = o1 := by injection ho
        subst hoo
        cases hcase : o.id with
        | none =>
          refine ⟨{ o with id := some ((fixed.length : Int) + 1) }, ?_, ?_, rfl, rfl, ?_⟩
          · refine fixItemsAux_mem_of_mem_acc t _ _ ?_
            rw [hcase]
            dsimp only []
            exact List.mem_append_right _ (List.mem_singleton.2 rfl)
          · rfl
          · intro x hx; exact Option.noConfusion hx
        | some x =>
          refine ⟨o, ?_, ?_, rfl, rfl, fun _ _ => rfl⟩
          · refine fixItemsAux_mem_of_mem_acc t _ _ ?_
            rw [hcase]
            dsimp only []
            exact List.mem_append_right _ (List.mem_singleton.2 rfl)
          · rw [hcase]; rfl
      · exact ih _ o ho
    | other =>
      rcases List.mem_cons.1 ho with ho | ho
      · exact CSItem.noConfusion ho
      · exact ih _ o ho

/-- C9 amended: `_fix_resume_data` never fails and normalizes every
customSections items list so that every item is a mapping; every mapping of
the input survives with an integer id (assigned as `len(fixed_items)+1` when
missing - NOT guaranteed unique within the section - and kept verbatim when
present); string items are coerced to `{"title": s}` mappings, which carry NO
id; other malformed items are dropped. -/
theorem fix_resume_data_normalizes (d : ParsedResumeData) (name : String)
    (sd : SectionData)
    (hmem : (name, sd) ∈ (fix_resume_data d).customSections)
    (l : List CSItem) (hl : sd.items = some l) :
    (∀ it ∈ l, isObjB it = true) ∧
    (∀ o : ObjData, CSItem.obj o ∈ l → o.id = none →
      ∃ s, o = ⟨none, some s, []⟩) ∧
    (∃ sd0 : SectionData, (name, sd0) ∈ d.customSections ∧
      ∃ l0, sd0.items = some l0 ∧ l = fixItems l0 ∧
        ∀ o : ObjData, CSItem.obj o ∈ l0 →
          ∃ o2 : ObjData, CSItem.obj o2 ∈ l ∧ o2.id.isSome = true ∧
            o2.title = o.title ∧ o2.extra = o.extra ∧
            (∀ x, o.id = some x → o2 = o)) := by
  unfold fix_resume_data at hmem
  obtain ⟨p, hp, hfp⟩ := List.mem_map.1 hmem
  rcases hpi : p.2.items with _ | l0
  · rw [hpi] at hfp
    dsimp only [] at hfp
    rw [Prod.mk.injEq] at hfp
    obtain ⟨hn, hsd⟩ := hfp
    rw [← hsd, hpi] at hl
    exact Option.noConfusion hl
  · rw [hpi] at hfp
    dsimp only [] at hfp
    rw [Prod.mk.injEq] at hfp
    obtain ⟨hn, hsd⟩ := hfp
    rw [← hsd] at hl
    have hitems : l = fixItems l0 := by
      injection hl with h0
      exact h0.symm
    subst hitems
    refine ⟨?_, ?_, ?_⟩
    · exact fixItemsAux_all_obj l0 []
        (fun it hit => absurd hit (List.not_mem_nil _))
    · exact fixItemsAux_id_none_is_coerced_string l0 []
        (fun o ho _ => absurd ho (List.not_mem_nil _))
    · refine ⟨p.2, ?_, l0, hpi, rfl, ?_⟩
      · rw [← hn]
        exact (show (p.1, p.2) ∈ d.customSections from hp)
      · intro o ho
        exact fixItemsAux_obj_gets_id l0 [] o ho

/-- Witness for C9 (amended) at the counterexample input data. -/
theorem fix_resume_data_normalizes_witness :
    (∀ it ∈ fixItems fixCexItems, isObjB it = true) ∧
    (∀ o : ObjData, CSItem.obj o ∈ fixItems fixCexItems → o.id = none →
      ∃ s, o = ⟨none, some s, []⟩) ∧
    (∃ sd0 : SectionData, ("projects", sd0) ∈ fixCexData.customSections ∧
      ∃ l0, sd0.items = some l0 ∧ fixItems fixCexItems = fixItems l0 ∧
        ∀ o : ObjData, CSItem.obj o ∈ l0 →
          ∃ o2 : ObjData, CSItem.obj o2 ∈ fixItems fixCexItems ∧
            o2.id.isSome = true ∧ o2.title = o.title ∧ o2.extra = o.extra ∧
            (∀ x, o.id = some x → o2 = o)) :=
  fix_resume_data_normalizes fixCexData "projects"
    ⟨some (fixItems fixCexItems)⟩ (by decide) (fixItems fixCexItems) rfl

/-!
## Claim C8 - atomicity and lock scope of the registry operations
-/

/-- A complete valid run consumes exactly one scheduler slot per step. -/
lemma validRun_length :
    ∀ (sched : List Bool) (owner : Option Bool) (p1 p2 : List Step),
      validRun owner p1 p2 sched = true →
      sched.length = p1.length + p2.length := by
  intro sched
  induction sched with
  | nil =>
    intro owner p1 p2 h
    unfold validRun at h
    rw [Bool.and_eq_true, List.isEmpty_iff, List.isEmpty_iff] at h
    rw [h.1, h.2]
    rfl
  | cons t ts ih =>
    intro owner p1 p2 h
    cases t
    · cases p1 with
      | nil => simp [validRun] at h
      | cons s rest =>
        rw [show validRun owner (s :: rest) p2 (false :: ts) =
            (match stepLock owner false s with
             | none => false
             | some owner2 => validRun owner2 rest p2 ts) from rfl] at h
        cases hsl : stepLock owner false s with
        | none => rw [hsl] at h; exact Bool.noConfusion h
        | some o2 =>
          rw [hsl] at h
          dsimp only [] at h
          have hrec := ih o2 rest p2 h
          simp only [List.length_cons, hrec]
          omega
    · cases p2 with
      | nil => simp [validRun] at h
      | cons s rest =>
        rw [show validRun owner p1 (s :: rest) (true :: ts) =
            (match stepLock owner true s with
             | none => false
             | some owner2 => validRun owner2 p1 rest ts) from rfl] at h
        cases hsl : stepLock owner true s with
        | none => rw [hsl] at h; exact Bool.noConfusion h
        | some o2 =>
          rw [hsl] at h
          dsimp only [] at h
          have hrec := ih o2 p1 rest h
          simp only [List.length_cons, hrec]
          omega

/-- Exhaustive check over every ten-slot schedule: two concurrent
`create_resume_atomic_master` bodies can only run serially. -/
lemma cram_pair_len10_serial :
    ∀ b1 b2 b3 b4 b5 b6 b7 b8 b9 b10 : Bool,
      validRun none cramSteps cramSteps
        [b1, b2, b3, b4, b5, b6, b7, b8, b9, b10] = true →
      ([b1, b2, b3, b4, b5, b6, b7, b8, b9, b10] =
          List.replicate 5 false ++ List.replicate 5 true ∨
        [b1, b2, b3, b4, b5, b6, b7, b8, b9, b10] =
          List.replicate 5 true ++ List.replicate 5 false) := by decide

/-- The interleaving used by the C8 counterexample: the first coroutine runs
`create_resume_atomic_master`, the second a plain `create_resume`, whose
INSERT lands between the master lookup and the INSERT of the atomic
creation. -/
def interleavedSched : List Bool :=
  [false, false, true, false, false, false]

/-- C8 counterexample: a plain `create_resume` INSERT interleaves strictly
inside the critical section of a concurrent `create_resume_atomic_master`
(the schedule is valid because `create_resume` never touches the lock), so
the lookup/demotion/creation sequence is NOT observed as an atomic unit by
other creations; and `set_master_resume` as well as `create_resume` execute
their statements without acquiring `_master_resume_lock`, so not every
creation/promotion operation runs under the registry-wide mutual-exclusion
section. -/
theorem create_resume_interleaves_atomic_master :
    (validRun none cramSteps crSteps interleavedSched = true ∧
      interleavedSched ≠ [true] ++ List.replicate 5 false ∧
      interleavedSched ≠ List.replicate 5 false ++ [true]) ∧
    executesUnderLock smrSteps = false ∧
    executesUnderLock crSteps = false := by decide

/-- C8 amended: `create_resume_atomic_master` performs its master lookup,
demotion and creation entirely while holding the registry-wide
`_master_resume_lock`, and consequently two concurrent
`create_resume_atomic_master` calls can only execute serially (every valid
schedule of the pair is one body entirely before the other); but
`set_master_resume` and plain `create_resume` do NOT acquire that lock, so
their statements may interleave with an in-flight atomic creation. -/
theorem create_resume_atomic_master_lock_scope :
    executesUnderLock cramSteps = true ∧
    executesUnderLock smrSteps = false ∧
    executesUnderLock crSteps = false ∧
    (∀ sched : List Bool, validRun none cramSteps cramSteps sched = true →
      sched = List.replicate 5 false ++ List.replicate 5 true ∨
      sched = List.replicate 5 true ++ List.replicate 5 false) := by
  refine ⟨by decide, by decide, by decide, ?_⟩
  intro sched h
  have hlen := validRun_length sched none cramSteps cramSteps h
  rw [show cramSteps.length = 5 from rfl] at hlen
  rcases sched with _ | ⟨b1, sched⟩
  · simp at hlen
  rcases sched with _ | ⟨b2, sched⟩
  · simp at hlen
  rcases sched with _ | ⟨b3, sched⟩
  · simp at hlen
  rcases sched with _ | ⟨b4, sched⟩
  · simp at hlen
  rcases sched with _ | ⟨b5, sched⟩
  · simp at hlen
  rcases sched with _ | ⟨b6, sched⟩
  · simp at hlen
  rcases sched with _ | ⟨b7, sched⟩
  · simp at hlen
  rcases sched with _ | ⟨b8, sched⟩
  · simp at hlen
  rcases sched with _ | ⟨b9, sched⟩
  · simp at hlen
  rcases sched with _ | ⟨b10, sched⟩
  · simp at hlen
  rcases sched with _ | ⟨b11, sched⟩
  · exact cram_pair_len10_serial b1 b2 b3 b4 b5 b6 b7 b8 b9 b10 h
  · exfalso
    simp only [List.length_cons] at hlen
    omega

/-- Witness for C8 (amended): the fully serial ten-slot schedule is valid and
is recognized as serial. -/
theorem create_resume_atomic_master_lock_scope_witness :
    List.replicate 5 false ++ List.replicate 5 true =
        List.replicate 5 false ++ List.replicate 5 true ∨
      List.replicate 5 false ++ List.replicate 5 true =
        List.replicate 5 true ++ List.replicate 5 false :=
  create_resume_atomic_master_lock_scope.2.2.2
    (List.replicate 5 false ++ List.replicate 5 true) (by decide)

/-!
## Claim C3 - diff of identical documents
-/

/-- Positional description comparison of a list against itself finds nothing. -/
lemma descListDiff_self : ∀ l : List DescItem, descListDiff l l = [] := by
  intro l
  induction l with
  | nil => simp [descListDiff]
  | cons o os ih => cases o <;> simp [descListDiff, ih]

/-- Set-valued comparison of a list against itself finds nothing. -/
lemma setFieldDiff_self (ft : FieldType) (ac rc : Confidence)
    (l : List String) : setFieldDiff ft ac rc l l = [] := by
  unfold setFieldDiff
  have h : l.dedup.filter (fun v => decide (¬ v ∈ l)) = [] := by
    rw [List.filter_eq_nil_iff]
    intro a ha
    have := List.mem_dedup.1 ha
    simp [this]
  rw [h]
  rfl

/-- Work-experience comparison of a list against itself finds nothing. -/
lemma workExperienceDiff_self (wx : List WorkEntry) :
    workExperienceDiff wx wx = [] := by
  unfold workExperienceDiff
  rw [List.flatten_eq_nil_iff]
  intro l hl
  obtain ⟨i, _, rfl⟩ := List.mem_map.1 hl
  cases hf : wx.find? (fun e => e.id == i) with
  | none => simp [hf]
  | some e => simp [hf, descListDiff_self]

/-- C3: the diff of two deep-value-equal documents is the zero-valued
summary together with the empty entry sequence. -/
theorem calculate_resume_diff_identical (D : ResumeDoc) :
    calculate_resume_diff D D = (⟨0, 0, 0, 0, 0⟩, []) := by
  unfold calculate_resume_diff
  rw [show titleDiff D.title D.title = [] from by simp [titleDiff],
    show summaryDiff D.summary D.summary = [] from by simp [summaryDiff],
    setFieldDiff_self, setFieldDiff_self, setFieldDiff_self, setFieldDiff_self,
    workExperienceDiff_self]
  rfl

/-!
## Claim C4 - set semantics of skills / certifications / languages / awards
-/

/-- One `added` entry of field `ft` carrying new value `v`. -/
def isAddedValue (ft : FieldType) (v : String) (e : DiffEntry) : Bool :=
  decide (e.field_type = ft ∧ e.change_type = ChangeType.added ∧
    e.new_value = some v)

/-- One `removed` entry of field `ft` carrying old value `v`. -/
def isRemovedValue (ft : FieldType) (v : String) (e : DiffEntry) : Bool :=
  decide (e.field_type = ft ∧ e.change_type = ChangeType.removed ∧
    e.old_value = some v)

/-- Every entry of a `titleDiff` is a `modified` entry of field `title`. -/
lemma titleDiff_fields (o r : String) :
    ∀ e ∈ titleDiff o r, e.field_type = .title ∧ e.change_type = .modified := by
  intro e he
  unfold titleDiff at he
  by_cases h : o = r
  · rw [if_pos h] at he
    exact absurd he (List.not_mem_nil _)
  · rw [if_neg h, List.mem_singleton] at he
    rw [he]
    exact ⟨rfl, rfl⟩

/-- Every entry of a `summaryDiff` has field `summary`. -/
lemma summaryDiff_fields (o r : String) :
    ∀ e ∈ summaryDiff o r, e.field_type = .summary := by
  intro e he
  unfold summaryDiff at he
  by_cases h1 : o = r
  · rw [if_pos h1] at he
    exact absurd he (List.not_mem_nil _)
  · rw [if_neg h1] at he
    by_cases h2 : o = ""
    · rw [if_pos h2, List.mem_singleton] at he
      rw [he]
    · rw [if_neg h2] at he
      by_cases h3 : r = ""
      · rw [if_pos h3, List.mem_singleton] at he
        rw [he]
      · rw [if_neg h3, List.mem_singleton] at he
        rw [he]

/-- Every entry of a `descListDiff` has field `description`. -/
lemma descListDiff_fields :
    ∀ l1 l2 : List DescItem, ∀ e ∈ descListDiff l1 l2,
      e.field_type = .description := by
  intro l1
  induction l1 with
  | nil =>
    intro l2
    induction l2 with
    | nil => intro e he; simp [descListDiff] at he
    | cons r rs ih =>
      intro e he
      cases r with
      | str s =>
        simp only [descListDiff] at he
        rcases List.mem_cons.1 he with he | he
        · rw [he]
        · exact ih e he
      | malformed =>
        simp only [descListDiff] at he
        exact ih e he
  | cons o os ih =>
    intro l2 e he
    cases l2 with
    | nil =>
      cases o with
      | str s =>
        simp only [descListDiff] at he
        rcases List.mem_cons.1 he with he | he
        · rw [he]
        · exact ih [] e he
      | malformed =>
        simp only [descListDiff] at he
        exact ih [] e he
    | cons r rs =>
      cases o with
      | str a =>
        cases r with
        | str b =>
          simp only [descListDiff] at he
          rcases List.mem_append.1 he with he | he
          · by_cases hab : a = b
            · simp [hab] at he
            · simp [hab] at he
              subst he
              rfl
          · exact ih rs e he
        | malformed =>
          simp only [descListDiff, List.nil_append] at he
          exact ih rs e he
      | malformed =>
        cases r with
        | str b =>
          simp only [descListDiff, List.nil_append] at he
          exact ih rs e he
        | malformed =>
          simp only [descListDiff, List.nil_append] at he
          exact ih rs e he

/-- Every entry of a `workExperienceDiff` has field `description`. -/
lemma workExperienceDiff_fields (w1 w2 : List WorkEntry) :
    ∀ e ∈ workExperienceDiff w1 w2, e.field_type = .description := by
  intro e he
  unfold workExperienceDiff at he
  obtain ⟨l, hl, hel⟩ := List.mem_flatten.1 he
  obtain ⟨i, _, rfl⟩ := List.mem_map.1 hl
  cases hf1 : w1.find? (fun e0 => e0.id == i) with
  | none => rw [hf1] at hel; simp at hel
  | some a =>
    cases hf2 : w2.find? (fun e0 => e0.id == i) with
    | none => rw [hf1, hf2] at hel; simp at hel
    | some b =>
      rw [hf1, hf2] at hel
      dsimp only [] at hel
      exact descListDiff_fields a.description b.description e hel

/-- The shape of `setFieldDiff` entries: field `ft`, never `modified`, and an
`added` entry carries the addition confidence, a `removed` entry the removal
confidence. -/
lemma setFieldDiff_fields (ft : FieldType) (ac rc : Confidence)
    (A B : List String) :
    ∀ e ∈ setFieldDiff ft ac rc A B, e.field_type = ft ∧
      e.change_type ≠ .modified ∧
      (e.change_type = .added → e.confidence = ac ∧ e.old_value = none) ∧
      (e.change_type = .removed → e.confidence = rc ∧ e.new_value = none) := by
  intro e he
  unfold setFieldDiff at he
  rcases List.mem_append.1 he with he | he
  · obtain ⟨v, _, rfl⟩ := List.mem_map.1 he
    exact ⟨rfl, by simp, fun _ => ⟨rfl, rfl⟩, by simp⟩
  · obtain ⟨v, _, rfl⟩ := List.mem_map.1 he
    exact ⟨rfl, by simp, by simp, fun _ => ⟨rfl, rfl⟩⟩

/-- Counting one value in a duplicate-free string list. -/
lemma countP_value_of_nodup :
    ∀ l : List String, l.Nodup → ∀ v : String,
      l.countP (fun w => decide (w = v)) = if v ∈ l then 1 else 0 := by
  intro l
  induction l with
  | nil => intro _ v; simp
  | cons a t ih =>
    intro h v
    rw [List.nodup_cons] at h
    rw [List.countP_cons, ih h.2 v]
    by_cases hav : a = v
    · subst hav
      have h0 : (if a ∈ t then 1 else 0) = 0 := by
        rw [if_neg h.1]
      rw [h0]
      simp [List.mem_cons]
    · have hvm : (v ∈ a :: t) ↔ (v ∈ t) := by
        rw [List.mem_cons]
        constructor
        · rintro (h1 | h1)
          · exact absurd h1.symm hav
          · exact h1
        · intro h1; exact Or.inr h1
      have hd : (decide (a = v)) = false := by simp [hav]
      rw [hd, if_neg Bool.false_ne_true, Nat.add_zero]
      exact (if_congr hvm rfl rfl).symm

/-- A predicate that forces a field kind counts nothing in a segment of a
different field kind. -/
lemma countP_zero_of_fields {l : List DiffEntry} {gt ft : FieldType}
    (hf : ∀ e ∈ l, e.field_type = gt) (hne : gt ≠ ft)
    (p : DiffEntry → Bool) (hp : ∀ e, p e = true → e.field_type = ft) :
    l.countP p = 0 := by
  rw [List.countP_eq_zero]
  intro e he hpe
  exact hne ((hf e he) ▸ hp e hpe)

/-- Counting entries satisfying `p` only needs the entries passing a filter
that `p` entails. -/
lemma countP_eq_countP_filter {p q : DiffEntry → Bool}
    (h : ∀ e, p e = true → q e = true) (l : List DiffEntry) :
    l.countP p = (l.filter q).countP p := by
  rw [List.countP_filter]
  apply List.countP_congr
  intro e _
  constructor
  · intro hpe
    rw [Bool.and_eq_true]
    exact ⟨hpe, h e hpe⟩
  · intro hpq
    rw [Bool.and_eq_true] at hpq
    exact hpq.1

/-- A segment whose entries all have a different field kind filters to
nothing. -/
lemma filter_field_nil {l : List DiffEntry} {gt ft : FieldType}
    (hf : ∀ e ∈ l, e.field_type = gt) (hne : gt ≠ ft) :
    l.filter (fun e => decide (e.field_type = ft)) = [] := by
  rw [List.filter_eq_nil_iff]
  intro e he
  simp only [decide_eq_true_eq]
  rw [hf e he]
  exact hne

/-- A segment whose entries all have the filtered field kind passes the
filter unchanged. -/
lemma filter_field_self {l : List DiffEntry} {ft : FieldType}
    (hf : ∀ e ∈ l, e.field_type = ft) :
    l.filter (fun e => decide (e.field_type = ft)) = l := by
  rw [List.filter_eq_self]
  intro e he
  simp [hf e he]

/-- The entry list produced by `calculate_resume_diff`, segment by segment. -/
lemma calc_diff_entries (o r : ResumeDoc) :
    (calculate_resume_diff o r).2 =
      titleDiff o.title r.title ++ summaryDiff o.summary r.summary
      ++ setFieldDiff .skill .high .low o.technicalSkills r.technicalSkills
      ++ setFieldDiff .certification .high .low o.certificationsTraining
          r.certificationsTraining
      ++ setFieldDiff .language .medium .low o.languages r.languages
      ++ setFieldDiff .award .medium .low o.awards r.awards
      ++ workExperienceDiff o.workExperience r.workExperience := rfl

/-- The summary produced by `calculate_resume_diff` is the aggregate of its
entry list. -/
lemma calc_diff_summary (o r : ResumeDoc) :
    (calculate_resume_diff o r).1 = mkSummary (calculate_resume_diff o r).2 :=
  rfl

/-- The skill-field entries are exactly the skill set comparison. -/
lemma calc_diff_filter_skill (o r : ResumeDoc) :
    (calculate_resume_diff o r).2.filter
        (fun e => decide (e.field_type = .skill)) =
      setFieldDiff .skill .high .low o.technicalSkills r.technicalSkills := by
  rw [calc_diff_entries]
  simp only [List.filter_append]
  rw [filter_field_nil (fun e he => (titleDiff_fields _ _ e he).1) (by decide),
    filter_field_nil (summaryDiff_fields _ _) (by decide),
    filter_field_self (fun e he => (setFieldDiff_fields _ _ _ _ _ e he).1),
    filter_field_nil (fun e he => (setFieldDiff_fields _ _ _ _ _ e he).1)
      (by decide),
    filter_field_nil (fun e he => (setFieldDiff_fields _ _ _ _ _ e he).1)
      (by decide),
    filter_field_nil (fun e he => (setFieldDiff_fields _ _ _ _ _ e he).1)
      (by decide),
    filter_field_nil (workExperienceDiff_fields _ _) (by decide)]
  simp

/-- The certification-field entries are exactly the certification set
comparison. -/
lemma calc_diff_filter_certification (o r : ResumeDoc) :
    (calculate_resume_diff o r).2.filter
        (fun e => decide (e.field_type = .certification)) =
      setFieldDiff .certification .high .low o.certificationsTraining
        r.certificationsTraining := by
  rw [calc_diff_entries]
  simp only [List.filter_append]
  rw [filter_field_nil (fun e he => (titleDiff_fields _ _ e he).1) (by decide),
    filter_field_nil (summaryDiff_fields _ _) (by decide),
    filter_field_nil (fun e he => (setFieldDiff_fields _ _ _ _ _ e he).1)
      (by decide),
    filter_field_self (fun e he => (setFieldDiff_fields _ _ _ _ _ e he).1),
    filter_field_nil (fun e he => (setFieldDiff_fields _ _ _ _ _ e he).1)
      (by decide),
    filter_field_nil (fun e he => (setFieldDiff_fields _ _ _ _ _ e he).1)
      (by decide),
    filter_field_nil (workExperienceDiff_fields _ _) (by decide)]
  simp

/-- The language-field entries are exactly the language set comparison. -/
lemma calc_diff_filter_language (o r : ResumeDoc) :
    (calculate_resume_diff o r).2.filter
        (fun e => decide (e.field_type = .language)) =
      setFieldDiff .language .medium .low o.languages r.languages := by
  rw [calc_diff_entries]
  simp only [List.filter_append]
  rw [filter_field_nil (fun e he => (titleDiff_fields _ _ e he).1) (by decide),
    filter_field_nil (summaryDiff_fields _ _) (by decide),
    filter_field_nil (fun e he => (setFieldDiff_fields _ _ _ _ _ e he).1)
      (by decide),
    filter_field_nil (fun e he => (setFieldDiff_fields _ _ _ _ _ e he).1)
      (by decide),
    filter_field_self (fun e he => (setFieldDiff_fields _ _ _ _ _ e he).1),
    filter_field_nil (fun e he => (setFieldDiff_fields _ _ _ _ _ e he).1)
      (by decide),
    filter_field_nil (workExperienceDiff_fields _ _) (by decide)]
  simp

/-- The award-field entries are exactly the award set comparison. -/
lemma calc_diff_filter_award (o r : ResumeDoc) :
    (calculate_resume_diff o r).2.filter
        (fun e => decide (e.field_type = .award)) =
      setFieldDiff .award .medium .low o.awards r.awards := by
  rw [calc_diff_entries]
  simp only [List.filter_append]
  rw [filter_field_nil (fun e he => (titleDiff_fields _ _ e he).1) (by decide),
    filter_field_nil (summaryDiff_fields _ _) (by decide),
    filter_field_nil (fun e he => (setFieldDiff_fields _ _ _ _ _ e he).1)
      (by decide),
    filter_field_nil (fun e he => (setFieldDiff_fields _ _ _ _ _ e he).1)
      (by decide),
    filter_field_nil (fun e he => (setFieldDiff_fields _ _ _ _ _ e he).1)
      (by decide),
    filter_field_self (fun e he => (setFieldDiff_fields _ _ _ _ _ e he).1),
    filter_field_nil (workExperienceDiff_fields _ _) (by decide)]
  simp

/-- Per-value count of `added` entries in one set-field comparison. -/
lemma setFieldDiff_countP_added (ft : FieldType) (ac rc : Confidence)
    (A B : List String) (v : String) :
    (setFieldDiff ft ac rc A B).countP (isAddedValue ft v) =
      if v ∈ B ∧ ¬ v ∈ A then 1 else 0 := by
  unfold setFieldDiff
  rw [List.countP_append]
  have hrem : ((A.dedup.filter (fun w => decide (¬ w ∈ B))).map
      (fun w => (⟨ft, .removed, some w, none, rc⟩ : DiffEntry))).countP
      (isAddedValue ft v) = 0 := by
    rw [List.countP_eq_zero]
    intro e he
    obtain ⟨w, _, rfl⟩ := List.mem_map.1 he
    simp [isAddedValue]
  rw [hrem, Nat.add_zero, List.countP_map]
  have hcongr : (B.dedup.filter (fun w => decide (¬ w ∈ A))).countP
      ((isAddedValue ft v) ∘
        (fun w => (⟨ft, .added, none, some w, ac⟩ : DiffEntry))) =
      (B.dedup.filter (fun w => decide (¬ w ∈ A))).countP
        (fun w => decide (w = v)) := by
    apply List.countP_congr
    intro w _
    simp [isAddedValue, Function.comp]
  rw [hcongr,
    countP_value_of_nodup _ ((List.nodup_dedup B).filter _) v]
  have hmem : (v ∈ B.dedup.filter (fun w => decide (¬ w ∈ A))) ↔
      (v ∈ B ∧ ¬ v ∈ A) := by
    rw [List.mem_filter]
    simp [List.mem_dedup]
  exact if_congr hmem rfl rfl

/-- Per-value count of `removed` entries in one set-field comparison. -/
lemma setFieldDiff_countP_removed (ft : FieldType) (ac rc : Confidence)
    (A B : List String) (v : String) :
    (setFieldDiff ft ac rc A B).countP (isRemovedValue ft v) =
      if v ∈ A ∧ ¬ v ∈ B then 1 else 0 := by
  unfold setFieldDiff
  rw [List.countP_append]
  have hadd : ((B.dedup.filter (fun w => decide (¬ w ∈ A))).map
      (fun w => (⟨ft, .added, none, some w, ac⟩ : DiffEntry))).countP
      (isRemovedValue ft v) = 0 := by
    rw [List.countP_eq_zero]
    intro e he
    obtain ⟨w, _, rfl⟩ := List.mem_map.1 he
    simp [isRemovedValue]
  rw [hadd, Nat.zero_add, List.countP_map]
  have hcongr : (A.dedup.filter (fun w => decide (¬ w ∈ B))).countP
      ((isRemovedValue ft v) ∘
        (fun w => (⟨ft, .removed, some w, none, rc⟩ : DiffEntry))) =
      (A.dedup.filter (fun w => decide (¬ w ∈ B))).countP
        (fun w => decide (w = v)) := by
    apply List.countP_congr
    intro w _
    simp [isRemovedValue, Function.comp]
  rw [hcongr,
    countP_value_of_nodup _ ((List.nodup_dedup A).filter _) v]
  have hmem : (v ∈ A.dedup.filter (fun w => decide (¬ w ∈ B))) ↔
      (v ∈ A ∧ ¬ v ∈ B) := by
    rw [List.mem_filter]
    simp [List.mem_dedup]
  exact if_congr hmem rfl rfl

/-- The number of `added` entries of one set-field comparison is the size of
the addition list. -/
lemma setFieldDiff_countP_field_added (ft : FieldType) (ac rc : Confidence)
    (A B : List String) :
    (setFieldDiff ft ac rc A B).countP
        (fun e => decide (e.field_type = ft ∧ e.change_type = .added)) =
      (B.dedup.filter (fun w => decide (¬ w ∈ A))).length := by
  unfold setFieldDiff
  rw [List.countP_append]
  have hrem : ((A.dedup.filter (fun w => decide (¬ w ∈ B))).map
      (fun w => (⟨ft, .removed, some w, none, rc⟩ : DiffEntry))).countP
      (fun e => decide (e.field_type = ft ∧ e.change_type = .added)) = 0 := by
    rw [List.countP_eq_zero]
    intro e he
    obtain ⟨w, _, rfl⟩ := List.mem_map.1 he
    simp
  have hadd : ((B.dedup.filter (fun w => decide (¬ w ∈ A))).map
      (fun w => (⟨ft, .added, none, some w, ac⟩ : DiffEntry))).countP
      (fun e => decide (e.field_type = ft ∧ e.change_type = .added)) =
      ((B.dedup.filter (fun w => decide (¬ w ∈ A))).map
        (fun w => (⟨ft, .added, none, some w, ac⟩ : DiffEntry))).length := by
    rw [List.countP_eq_length]
    intro e he
    obtain ⟨w, _, rfl⟩ := List.mem_map.1 he
    simp
  rw [hrem, Nat.add_zero, hadd, List.length_map]

/-- The number of `removed` entries of one set-field comparison is the size
of the removal list. -/
lemma setFieldDiff_countP_field_removed (ft : FieldType) (ac rc : Confidence)
    (A B : List String) :
    (setFieldDiff ft ac rc A B).countP
        (fun e => decide (e.field_type = ft ∧ e.change_type = .removed)) =
      (A.dedup.filter (fun w => decide (¬ w ∈ B))).length := by
  unfold setFieldDiff
  rw [List.countP_append]
  have hadd : ((B.dedup.filter (fun w => decide (¬ w ∈ A))).map
      (fun w => (⟨ft, .added, none, some w, ac⟩ : DiffEntry))).countP
      (fun e => decide (e.field_type = ft ∧ e.change_type = .removed)) = 0 := by
    rw [List.countP_eq_zero]
    intro e he
    obtain ⟨w, _, rfl⟩ := List.mem_map.1 he
    simp
  have hrem : ((A.dedup.filter (fun w => decide (¬ w ∈ B))).map
      (fun w => (⟨ft, .removed, some w, none, rc⟩ : DiffEntry))).countP
      (fun e => decide (e.field_type = ft ∧ e.change_type = .removed)) =
      ((A.dedup.filter (fun w => decide (¬ w ∈ B))).map
        (fun w => (⟨ft, .removed, some w, none, rc⟩ : DiffEntry))).length := by
    rw [List.countP_eq_length]
    intro e he
    obtain ⟨w, _, rfl⟩ := List.mem_map.1 he
    simp
  rw [hadd, Nat.zero_add, hrem, List.length_map]

/-- The addition list of a set-field comparison counts the set difference. -/
lemma length_dedup_filter_eq_card_sdiff (A B : List String) :
    (B.dedup.filter (fun w => decide (¬ w ∈ A))).length =
      (B.toFinset \ A.toFinset).card := by
  have hnd : (B.dedup.filter (fun w => decide (¬ w ∈ A))).Nodup :=
    (List.nodup_dedup B).filter _
  rw [← List.toFinset_card_of_nodup hnd]
  congr 1
  ext x
  simp [List.mem_toFinset, List.mem_filter, List.mem_dedup, Finset.mem_sdiff]

/-- C4: the four set-valued fields are compared as string sets - exactly one
`added` entry per value of revised minus original, exactly one `removed`
entry per value of original minus revised, never a `modified` entry, and the
skills counters equal the sizes of the two set differences. -/
theorem set_valued_fields_diff_as_sets (o r : ResumeDoc) :
    (∀ v : String,
      (calculate_resume_diff o r).2.countP (isAddedValue .skill v) =
        (if v ∈ r.technicalSkills ∧ ¬ v ∈ o.technicalSkills then 1 else 0) ∧
      (calculate_resume_diff o r).2.countP (isRemovedValue .skill v) =
        (if v ∈ o.technicalSkills ∧ ¬ v ∈ r.technicalSkills then 1 else 0) ∧
      (calculate_resume_diff o r).2.countP (isAddedValue .certification v) =
        (if v ∈ r.certificationsTraining ∧ ¬ v ∈ o.certificationsTraining
          then 1 else 0) ∧
      (calculate_resume_diff o r).2.countP (isRemovedValue .certification v) =
        (if v ∈ o.certificationsTraining ∧ ¬ v ∈ r.certificationsTraining
          then 1 else 0) ∧
      (calculate_resume_diff o r).2.countP (isAddedValue .language v) =
        (if v ∈ r.languages ∧ ¬ v ∈ o.languages then 1 else 0) ∧
      (calculate_resume_diff o r).2.countP (isRemovedValue .language v) =
        (if v ∈ o.languages ∧ ¬ v ∈ r.languages then 1 else 0) ∧
      (calculate_resume_diff o r).2.countP (isAddedValue .award v) =
        (if v ∈ r.awards ∧ ¬ v ∈ o.awards then 1 else 0) ∧
      (calculate_resume_diff o r).2.countP (isRemovedValue .award v) =
        (if v ∈ o.awards ∧ ¬ v ∈ r.awards then 1 else 0)) ∧
    (∀ e ∈ (calculate_resume_diff o r).2,
      (e.field_type = .skill ∨ e.field_type = .certification ∨
        e.field_type = .language ∨ e.field_type = .award) →
      e.change_type ≠ .modified) ∧
    (calculate_resume_diff o r).1.skills_added =
      (r.technicalSkills.toFinset \ o.technicalSkills.toFinset).card ∧
    (calculate_resume_diff o r).1.skills_removed =
      (o.technicalSkills.toFinset \ r.technicalSkills.toFinset).card := by
  refine ⟨?_, ?_, ?_, ?_⟩
  · intro v
    have hqa : ∀ ft : FieldType, ∀ e, isAddedValue ft v e = true →
        (fun e0 : DiffEntry => decide (e0.field_type = ft)) e = true := by
      intro ft e h
      simp only [isAddedValue, decide_eq_true_eq] at h
      simp [h.1]
    have hqr : ∀ ft : FieldType, ∀ e, isRemovedValue ft v e = true →
        (fun e0 : DiffEntry => decide (e0.field_type = ft)) e = true := by
      intro ft e h
      simp only [isRemovedValue, decide_eq_true_eq] at h
      simp [h.1]
    refine ⟨?_, ?_, ?_, ?_, ?_, ?_, ?_, ?_⟩
    · rw [countP_eq_countP_filter (hqa .skill), calc_diff_filter_skill,
        setFieldDiff_countP_added]
    · rw [countP_eq_countP_filter (hqr .skill), calc_diff_filter_skill,
        setFieldDiff_countP_removed]
    · rw [countP_eq_countP_filter (hqa .certification),
        calc_diff_filter_certification, setFieldDiff_countP_added]
    · rw [countP_eq_countP_filter (hqr .certification),
        calc_diff_filter_certification, setFieldDiff_countP_removed]
    · rw [countP_eq_countP_filter (hqa .language),
        calc_diff_filter_language, setFieldDiff_countP_added]
    · rw [countP_eq_countP_filter (hqr .language),
        calc_diff_filter_language, setFieldDiff_countP_removed]
    · rw [countP_eq_countP_filter (hqa .award),
        calc_diff_filter_award, setFieldDiff_countP_added]
    · rw [countP_eq_countP_filter (hqr .award),
        calc_diff_filter_award, setFieldDiff_countP_removed]
  · intro e he hft
    rw [calc_diff_entries] at he
    simp only [List.mem_append] at he
    rcases he with ((((((he | he) | he) | he) | he) | he) | he)
    · rcases hft with h | h | h | h <;>
        (rw [(titleDiff_fields _ _ e he).1] at h; exact FieldType.noConfusion h)
    · rcases hft with h | h | h | h <;>
        (rw [summaryDiff_fields _ _ e he] at h; exact FieldType.noConfusion h)
    · exact (setFieldDiff_fields _ _ _ _ _ e he).2.1
    · exact (setFieldDiff_fields _ _ _ _ _ e he).2.1
    · exact (setFieldDiff_fields _ _ _ _ _ e he).2.1
    · exact (setFieldDiff_fields _ _ _ _ _ e he).2.1
    · rcases hft with h | h | h | h <;>
        (rw [workExperienceDiff_fields _ _ e he] at h;
          exact FieldType.noConfusion h)
  · have hq2 : ∀ e : DiffEntry,
        (fun e0 : DiffEntry => decide (e0.field_type = FieldType.skill ∧
          e0.change_type = ChangeType.added)) e = true →
        (fun e0 : DiffEntry => decide (e0.field_type = FieldType.skill)) e =
          true := by
      intro e h
      simp only [decide_eq_true_eq] at h
      simp [h.1]
    have h1 : (calculate_resume_diff o r).1.skills_added =
        (calculate_resume_diff o r).2.countP
          (fun e => decide (e.field_type = FieldType.skill ∧
            e.change_type = ChangeType.added)) := rfl
    rw [h1, countP_eq_countP_filter hq2, calc_diff_filter_skill,
      setFieldDiff_countP_field_added, length_dedup_filter_eq_card_sdiff]
  · have hq2 : ∀ e : DiffEntry,
        (fun e0 : DiffEntry => decide (e0.field_type = FieldType.skill ∧
          e0.change_type = ChangeType.removed)) e = true →
        (fun e0 : DiffEntry => decide (e0.field_type = FieldType.skill)) e =
          true := by
      intro e h
      simp only [decide_eq_true_eq] at h
      simp [h.1]
    have h1 : (calculate_resume_diff o r).1.skills_removed =
        (calculate_resume_diff o r).2.countP
          (fun e => decide (e.field_type = FieldType.skill ∧
            e.change_type = ChangeType.removed)) := rfl
    rw [h1, countP_eq_countP_filter hq2, calc_diff_filter_skill,
      setFieldDiff_countP_field_removed, length_dedup_filter_eq_card_sdiff]

/-!
## Claim C5 - risk scoring of skill/certification additions
-/

/-- C5: every `added` entry of field `skill` or `certification` carries
`high` confidence, and the summary's `high_risk_changes` counts exactly the
`high`-confidence entries. -/
theorem skill_certification_additions_high_risk (o r : ResumeDoc) :
    (∀ e ∈ (calculate_resume_diff o r).2,
      e.change_type = .added →
      (e.field_type = .skill ∨ e.field_type = .certification) →
      e.confidence = .high) ∧
    (calculate_resume_diff o r).1.high_risk_changes =
      (calculate_resume_diff o r).2.countP
        (fun e => decide (e.confidence = Confidence.high)) := by
  refine ⟨?_, rfl⟩
  intro e he hadd hft
  rw [calc_diff_entries] at he
  simp only [List.mem_append] at he
  rcases he with ((((((he | he) | he) | he) | he) | he) | he)
  · rw [(titleDiff_fields _ _ e he).2] at hadd
    exact ChangeType.noConfusion hadd
  · rcases hft with h | h <;>
      (rw [summaryDiff_fields _ _ e he] at h; exact FieldType.noConfusion h)
  · exact ((setFieldDiff_fields _ _ _ _ _ e he).2.2.1 hadd).1
  · exact ((setFieldDiff_fields _ _ _ _ _ e he).2.2.1 hadd).1
  · rcases hft with h | h <;>
      (rw [(setFieldDiff_fields _ _ _ _ _ e he).1] at h;
        exact FieldType.noConfusion h)
  · rcases hft with h | h <;>
      (rw [(setFieldDiff_fields _ _ _ _ _ e he).1] at h;
        exact FieldType.noConfusion h)
  · rcases hft with h | h <;>
      (rw [workExperienceDiff_fields _ _ e he] at h;
        exact FieldType.noConfusion h)

/-!
## Claim C6 - improver validation of `personalInfo`
-/

/-- C6: whenever the external structured completion returns a result without
a non-empty `personalInfo` section, `improve_resume` fails with
`MissingSectionError` naming the missing top-level key and returns no
document at all. -/
theorem improve_resume_missing_personal_info (out : LLMImproveResult)
    (h : out.personalInfo = none ∨ out.personalInfo = some []) :
    improve_resume out = .error (.missingSection "personalInfo") ∧
    ∀ d, improve_resume out ≠ .ok d := by
  have he : improve_resume out = .error (.missingSection "personalInfo") := by
    unfold improve_resume
    rcases h with h | h
    · rw [h]
    · rw [h]
      rfl
  refine ⟨he, fun d hd => ?_⟩
  rw [he] at hd
  exact Except.noConfusion hd

/-- Witness for C6 at the truncated result `{}` of the integration test. -/
theorem improve_resume_missing_personal_info_witness :
    improve_resume ⟨none, ⟨"", "", [], [], [], [], []⟩⟩ =
      .error (.missingSection "personalInfo") ∧
    ∀ d, improve_resume ⟨none, ⟨"", "", [], [], [], [], []⟩⟩ ≠ .ok d :=
  improve_resume_missing_personal_info ⟨none, ⟨"", "", [], [], [], [], []⟩⟩
    (Or.inl rfl)
